import Mathlib

/-!
Verification development for the puzzlescript-rust engine core.

This file gives a shallow embedding, in Lean 4, of the data model and the
operations of the engine (src/bitset.rs, src/model/cell.rs,
src/model/board.rs, src/model/tile.rs, src/model/bracket.rs,
src/model/rule.rs, src/model/game.rs, src/engine.rs), and proves theorems
about them.

Modelling conventions:
* Machine integers (u16, u128) become Nat; bit manipulation keeps the
  source's bucket layout explicitly.
* Rust panics and unbounded loops become Option results: a function that
  can panic, or whose loop has no syntactic bound, returns none on the
  panic path or when an explicit fuel parameter runs out.  Loops that the
  source caps at 1000 iterations keep that cap.
* The FnvHashMap of collision layers inside a Cell becomes an association
  list kept sorted by layer (canonical, so that list equality coincides
  with the content equality of the Rust hash map).  Likewise the
  FnvHashSet of (layer, direction) pairs in a StripeCache becomes a
  duplicate-free list.  Where the source iterates a hash map in
  unspecified order, the model iterates in ascending layer order.
* The random number generator (rand_xorshift) is abstracted as an oracle:
  a list of pre-drawn naturals consumed left to right; gen_range(0, n)
  takes the head modulo n and fails (as the Rust call does) when n = 0.
* Vector indexing out of bounds, which panics in Rust, is modelled with
  getD / List.set (total); every use in the engine stays in bounds, and
  theorems that depend on an indexing panic carry the corresponding bound
  as a hypothesis.
* The file src/model/neighbor.rs is declared in src/model.rs but absent
  from the source tree; the Neighbor type and its operations (matches,
  evaluate, populate_cache, the action instructions prepared by
  prepare_actions) are modelled from the spec, section 4.4, and are marked
  as such in their doc comments.
-/

namespace PS

/-- WantsToMove, the per-sprite motion intent (src/model/util.rs). -/
inductive WantsToMove where
  | stationary
  | up
  | down
  | left
  | right
  | action
  | randomDir
deriving Repr, DecidableEq

/-- CardinalDirection (src/model/util.rs). -/
inductive CardinalDirection where
  | up
  | down
  | left
  | right
deriving Repr, DecidableEq

/-- WantsToMove::to_cardinal_direction (src/model/util.rs). -/
def WantsToMove.to_cardinal_direction : WantsToMove → Option CardinalDirection
  | .up => some .up
  | .down => some .down
  | .left => some .left
  | .right => some .right
  | _ => none

/-- Position on the board (src/model/util.rs); u16 coordinates become Nat. -/
structure Position where
  x : Nat
  y : Nat
deriving Repr, DecidableEq

/-- Dimension (src/model/util.rs). -/
structure Dimension where
  width : Nat
  height : Nat
deriving Repr, DecidableEq

/-- SpriteAndWantsToMove (src/model/util.rs). -/
structure SpriteAndWantsToMove where
  sprite_index : Nat
  wants_to_move : WantsToMove
deriving Repr, DecidableEq

/-- SpriteState (src/model/util.rs).  The 20-char name array is dropped:
the source's PartialEq, Ord and Hash all ignore it. -/
structure SpriteState where
  index : Nat
  collision_layer : Nat
deriving Repr, DecidableEq

/-- TriggeredCommands (src/model/util.rs). -/
structure TriggeredCommands where
  message : Option String
  again : Bool
  cancel : Bool
  checkpoint : Bool
  restart : Bool
  win : Bool
  sfx : Bool
deriving Repr, DecidableEq

/-- TriggeredCommands::new / Default (src/model/util.rs). -/
def TriggeredCommands.new : TriggeredCommands :=
  ⟨none, false, false, false, false, false, false⟩

/-- TriggeredCommands::merge (src/model/util.rs): OR the booleans, keep the
first message. -/
def TriggeredCommands.merge (t other : TriggeredCommands) : TriggeredCommands :=
  { message := match t.message with
      | none => other.message
      | some m => some m
    again := t.again || other.again
    cancel := t.cancel || other.cancel
    checkpoint := t.checkpoint || other.checkpoint
    restart := t.restart || other.restart
    win := t.win || other.win
    sfx := t.sfx || other.sfx }

/-! ## BitSet (src/bitset.rs)

A fixed set of 4 buckets of 128 bits.  Bucket contents are Nats kept below
2 to the 128 by the operations (all source operations are AND / OR masks
of in-range values).  The source indexes bucket = index / 128 and panics
for index >= 512; the model reads missing buckets as 0 and writes with
List.set (a no-op out of range), so theorems whose truth depends on that
panic carry an explicit index < 512 hypothesis. -/

/-- BUCKET_SIZE constant (src/bitset.rs). -/
def BUCKET_SIZE : Nat := 128

/-- BUCKET_COUNT constant (src/bitset.rs). -/
def BUCKET_COUNT : Nat := 4

/-- BitSet (src/bitset.rs): the cached emptiness flag plus the 4 buckets. -/
structure BitSet where
  _is_empty : Bool
  bits : List Nat
deriving Repr, DecidableEq

/-- BitSet::new (src/bitset.rs). -/
def BitSet.new : BitSet :=
  ⟨true, [0, 0, 0, 0]⟩

/-- BitSet::contains (src/bitset.rs). -/
def BitSet.contains (s : BitSet) (index : Nat) : Bool :=
  let bucket := index / BUCKET_SIZE
  let rem := index % BUCKET_SIZE
  (s.bits.getD bucket 0) &&& (1 <<< rem) > 0

/-- BitSet::insert (src/bitset.rs). -/
def BitSet.insert (s : BitSet) (index : Nat) : BitSet :=
  let bucket := index / BUCKET_SIZE
  let rem := index % BUCKET_SIZE
  ⟨false, s.bits.set bucket ((s.bits.getD bucket 0) ||| (1 <<< rem))⟩

/-- BitSet::remove (src/bitset.rs); the u128 complement mask !(1 << rem)
is 2 ^ 128 - 1 - 2 ^ rem. -/
def BitSet.remove (s : BitSet) (index : Nat) : BitSet :=
  let bucket := index / BUCKET_SIZE
  let rem := index % BUCKET_SIZE
  let bits := s.bits.set bucket ((s.bits.getD bucket 0) &&& (2 ^ 128 - 1 - (1 <<< rem)))
  ⟨bits.all (· == 0), bits⟩

/-- BitSet::contains_all (src/bitset.rs). -/
def BitSet.contains_all (s other : BitSet) : Bool :=
  (List.range BUCKET_COUNT).all fun bucket =>
    (s.bits.getD bucket 0) &&& (other.bits.getD bucket 0) == other.bits.getD bucket 0

/-- BitSet::contains_none (src/bitset.rs). -/
def BitSet.contains_none (s other : BitSet) : Bool :=
  (List.range BUCKET_COUNT).all fun bucket =>
    (s.bits.getD bucket 0) &&& (other.bits.getD bucket 0) == 0

/-- BitSet::is_empty (src/bitset.rs): returns the cached flag. -/
def BitSet.is_empty (s : BitSet) : Bool :=
  s._is_empty

/-- BitSet::contains_any (src/bitset.rs): true when the argument is empty. -/
def BitSet.contains_any (s other : BitSet) : Bool :=
  if other.is_empty then true
  else (List.range BUCKET_COUNT).any fun bucket =>
    (s.bits.getD bucket 0) &&& (other.bits.getD bucket 0) ≠ 0

/-! ## StripeCache (src/model/board.rs) -/

/-- StripeCache (src/model/board.rs): the per-row / per-column summary.
The FnvHashSet of (collision_layer, direction) pairs becomes a
duplicate-free list. -/
structure StripeCache where
  sprites : BitSet
  dirs : List (Nat × WantsToMove)
deriving Repr, DecidableEq

/-- StripeCache::new (src/model/board.rs). -/
def StripeCache.new : StripeCache :=
  ⟨BitSet.new, []⟩

/-- Insertion into the dirs hash set: a no-op when the pair is present. -/
def dirsInsert (dirs : List (Nat × WantsToMove)) (p : Nat × WantsToMove) :
    List (Nat × WantsToMove) :=
  if p ∈ dirs then dirs else p :: dirs

/-- StripeCache::add_sprite_index (src/model/board.rs). -/
def StripeCache.add_sprite_index (c : StripeCache) (collision_layer sprite_index : Nat)
    (dir : WantsToMove) : StripeCache :=
  ⟨c.sprites.insert sprite_index, dirsInsert c.dirs (collision_layer, dir)⟩

/-- StripeCache::remove_collision_layer (src/model/board.rs): deliberately a
no-op; the cache is a conservative superset. -/
def StripeCache.remove_collision_layer (c : StripeCache) (_collision_layer : Nat) :
    StripeCache :=
  c

/-- StripeCache::set_wants_to_move (src/model/board.rs): records the new
pair, never removes the old one. -/
def StripeCache.set_wants_to_move (c : StripeCache) (collision_layer : Nat)
    (dir : WantsToMove) : StripeCache :=
  ⟨c.sprites, dirsInsert c.dirs (collision_layer, dir)⟩

/-- StripeCache::contains_all (src/model/board.rs). -/
def StripeCache.contains_all (c other : StripeCache) : Bool :=
  c.sprites.contains_all other.sprites

/-- StripeCache::contains_all_dirs (src/model/board.rs). -/
def StripeCache.contains_all_dirs (c : StripeCache)
    (dirs : List (Nat × WantsToMove)) : Bool :=
  dirs.all fun d => d ∈ c.dirs

/-! ## Tile and TileWithModifier (src/model/tile.rs) -/

/-- TileKind (src/model/tile.rs). -/
inductive TileKind where
  | and
  | or
deriving Repr, DecidableEq

/-- Tile (src/model/tile.rs). -/
structure Tile where
  kind : TileKind
  name : String
  bits : BitSet
  collision_layers : List Nat
  sprites : List SpriteState
deriving Repr, DecidableEq

/-- Tile::new (src/model/tile.rs): precomputes the sprite bits and the set
of collision layers (the FnvHashSet becomes a deduplicated list). -/
def Tile.new (kind : TileKind) (name : String) (sprites : List SpriteState) : Tile :=
  { kind := kind
    name := name
    bits := sprites.foldl (fun b s => b.insert s.index) BitSet.new
    collision_layers := (sprites.map (·.collision_layer)).dedup
    sprites := sprites }

/-- TileWithModifier (src/model/tile.rs). -/
structure TileWithModifier where
  random : Bool
  negated : Bool
  tile : Tile
  direction : Option WantsToMove
deriving Repr, DecidableEq

/-! ## Cell (src/model/cell.rs)

The FnvHashMap from collision layer to SpriteAndWantsToMove becomes an
association list kept sorted by layer, so that two cells with the same
content are equal as lists, exactly as the Rust hash maps compare equal. -/

/-- Lookup in the sorted association list of collision layers. -/
def layersLookup (l : List (Nat × SpriteAndWantsToMove)) (k : Nat) :
    Option SpriteAndWantsToMove :=
  match l with
  | [] => none
  | (k0, v) :: rest => if k = k0 then some v else layersLookup rest k

/-- Insert or replace in the sorted association list of collision layers. -/
def layersInsert (l : List (Nat × SpriteAndWantsToMove)) (k : Nat)
    (v : SpriteAndWantsToMove) : List (Nat × SpriteAndWantsToMove) :=
  match l with
  | [] => [(k, v)]
  | (k0, v0) :: rest =>
    if k < k0 then (k, v) :: (k0, v0) :: rest
    else if k = k0 then (k, v) :: rest
    else (k0, v0) :: layersInsert rest k v

/-- Removal from the association list of collision layers. -/
def layersRemove (l : List (Nat × SpriteAndWantsToMove)) (k : Nat) :
    List (Nat × SpriteAndWantsToMove) :=
  match l with
  | [] => []
  | (k0, v0) :: rest => if k = k0 then rest else (k0, v0) :: layersRemove rest k

/-- Cell (src/model/cell.rs). -/
structure Cell where
  collision_layers : List (Nat × SpriteAndWantsToMove)
  sprite_bits : BitSet
deriving Repr, DecidableEq

/-- Cell::new (src/model/cell.rs). -/
def Cell.new : Cell :=
  ⟨[], BitSet.new⟩

/-- Cell::add_sprite_index (src/model/cell.rs).  Panics (none) when asked
to store RandomDir; returns the new cell and whether it changed. -/
def Cell.add_sprite_index (cell : Cell) (collision_layer sprite_index : Nat)
    (wants_to_move : WantsToMove) : Option (Cell × Bool) :=
  if wants_to_move = .randomDir then none
  else
    let w : SpriteAndWantsToMove := ⟨sprite_index, wants_to_move⟩
    match layersLookup cell.collision_layers collision_layer with
    | none =>
      some (⟨layersInsert cell.collision_layers collision_layer w,
             cell.sprite_bits.insert sprite_index⟩, true)
    | some w_curr =>
      if w_curr = w then some (cell, false)
      else
        some (⟨layersInsert cell.collision_layers collision_layer w,
               (cell.sprite_bits.remove w_curr.sprite_index).insert w.sprite_index⟩, true)

/-- Cell::add_sprite (src/model/cell.rs). -/
def Cell.add_sprite (cell : Cell) (sprite : SpriteState)
    (wants_to_move : WantsToMove) : Option (Cell × Bool) :=
  cell.add_sprite_index sprite.collision_layer sprite.index wants_to_move

/-- Cell::remove_collision_layer (src/model/cell.rs). -/
def Cell.remove_collision_layer (cell : Cell) (collision_layer : Nat) : Cell × Bool :=
  match layersLookup cell.collision_layers collision_layer with
  | some w =>
    (⟨layersRemove cell.collision_layers collision_layer,
      cell.sprite_bits.remove w.sprite_index⟩, true)
  | none => (cell, false)

/-- Cell::get_collision_layer (src/model/cell.rs). -/
def Cell.get_collision_layer (cell : Cell) (collision_layer : Nat) :
    Option SpriteAndWantsToMove :=
  layersLookup cell.collision_layers collision_layer

/-- Cell::get_wants_to_move (src/model/cell.rs). -/
def Cell.get_wants_to_move (cell : Cell) (collision_layer : Nat) :
    Option WantsToMove :=
  match layersLookup cell.collision_layers collision_layer with
  | none => none
  | some w => some w.wants_to_move

/-- Cell::set_wants_to_move (src/model/cell.rs).  Panics (none) when the
layer is empty; otherwise keeps the sprite index and replaces the
direction (the source also re-inserts the sprite index into the bitset). -/
def Cell.set_wants_to_move (cell : Cell) (collision_layer : Nat)
    (dir : WantsToMove) : Option (Cell × Bool) :=
  match layersLookup cell.collision_layers collision_layer with
  | none => none
  | some x =>
    if x.wants_to_move = dir then some (cell, false)
    else
      some (⟨layersInsert cell.collision_layers collision_layer ⟨x.sprite_index, dir⟩,
             cell.sprite_bits.insert x.sprite_index⟩, true)

/-- Cell::has_sprite (src/model/cell.rs). -/
def Cell.has_sprite (cell : Cell) (sprite : SpriteState) : Bool :=
  match layersLookup cell.collision_layers sprite.collision_layer with
  | none => false
  | some s => s.sprite_index == sprite.index

/-- Cell::has_collision_layer (src/model/cell.rs). -/
def Cell.has_collision_layer (cell : Cell) (collision_layer : Nat) : Bool :=
  (layersLookup cell.collision_layers collision_layer).isSome

/-- Cell::matches_any (src/model/cell.rs): an Or tile matches when some of
its collision layers holds one of its sprites (with the direction filter). -/
def Cell.matches_any (cell : Cell) (tile : Tile) (dir : Option WantsToMove) : Bool :=
  if cell.sprite_bits.contains_any tile.bits then
    tile.collision_layers.any fun collision_layer =>
      match layersLookup cell.collision_layers collision_layer with
      | some s =>
        if tile.bits.contains s.sprite_index then
          match dir with
          | none => true
          | some d => s.wants_to_move = d
        else false
      | none => false
  else false

/-- Cell::matches_all (src/model/cell.rs): an And tile matches when every
one of its collision layers holds one of its sprites (with the direction
filter). -/
def Cell.matches_all (cell : Cell) (tile : Tile) (dir : Option WantsToMove) : Bool :=
  if cell.sprite_bits.contains_all tile.bits then
    tile.collision_layers.all fun collision_layer =>
      match layersLookup cell.collision_layers collision_layer with
      | some cell_sprite =>
        if tile.bits.contains cell_sprite.sprite_index then
          match dir with
          | none => true
          | some d => cell_sprite.wants_to_move = d
        else false
      | none => false
  else false

/-- Cell::matches (src/model/cell.rs). -/
def Cell.matches (cell : Cell) (tile : Tile) (dir : Option WantsToMove) : Bool :=
  match tile.kind with
  | .and => cell.matches_all tile dir
  | .or => cell.matches_any tile dir

/-! ## Board (src/model/board.rs) -/

/-- Neighbors (src/model/board.rs): the lazy ray of positions from a start
position to the board edge in one direction (start included). -/
structure Neighbors where
  size : Dimension
  dir : CardinalDirection
  start : Position
deriving Repr, DecidableEq

/-- Neighbors::len (src/model/board.rs). -/
def Neighbors.len (n : Neighbors) : Nat :=
  match n.dir with
  | .up => n.start.y + 1
  | .down => n.size.height - n.start.y
  | .left => n.start.x + 1
  | .right => n.size.width - n.start.x

/-- The list of positions the PositionIter iterator produces
(src/model/board.rs): walk from start towards the edge. -/
def Neighbors.toList (n : Neighbors) : List Position :=
  match n.dir with
  | .up => (List.range (n.start.y + 1)).map fun i => ⟨n.start.x, n.start.y - i⟩
  | .down => (List.range (n.size.height - n.start.y)).map fun i => ⟨n.start.x, n.start.y + i⟩
  | .left => (List.range (n.start.x + 1)).map fun i => ⟨n.start.x - i, n.start.y⟩
  | .right => (List.range (n.size.width - n.start.x)).map fun i => ⟨n.start.x + i, n.start.y⟩

/-- Neighbors::nth (src/model/board.rs). -/
def Neighbors.nth (n : Neighbors) (i : Nat) : Option Position :=
  n.toList.get? i

/-- Board (src/model/board.rs). -/
structure Board where
  width : Nat
  height : Nat
  grid : List Cell
  row_cache : List StripeCache
  col_cache : List StripeCache
deriving Repr, DecidableEq

/-- Board::new (src/model/board.rs). -/
def Board.new (width height : Nat) : Board :=
  { width := width
    height := height
    grid := List.replicate (width * height) Cell.new
    row_cache := List.replicate height StripeCache.new
    col_cache := List.replicate width StripeCache.new }

/-- Board::size (src/model/board.rs). -/
def Board.size (b : Board) : Dimension :=
  ⟨b.width, b.height⟩

/-- Board::pos (src/model/board.rs): row-major index of a position. -/
def Board.pos (b : Board) (p : Position) : Nat :=
  p.y * b.width + p.x

/-- Board::index_to_pos (src/model/board.rs). -/
def Board.index_to_pos (b : Board) (index : Nat) : Position :=
  ⟨index % b.width, index / b.width⟩

/-- Board::positions_iter (src/model/board.rs). -/
def Board.positions_iter (b : Board) : List Position :=
  (List.range b.grid.length).map b.index_to_pos

/-- Board::get (src/model/board.rs); out-of-range reads, which panic in the
source, return the empty cell here (every engine access is in range). -/
def Board.get (b : Board) (p : Position) : Cell :=
  b.grid.getD (b.pos p) Cell.new

/-- Board::add_sprite_index (src/model/board.rs): write-through to both
stripe caches, then update the cell. -/
def Board.add_sprite_index (b : Board) (p : Position)
    (collision_layer sprite_index : Nat) (dir : WantsToMove) :
    Option (Board × Bool) :=
  let row_cache := b.row_cache.set p.y
    ((b.row_cache.getD p.y StripeCache.new).add_sprite_index collision_layer sprite_index dir)
  let col_cache := b.col_cache.set p.x
    ((b.col_cache.getD p.x StripeCache.new).add_sprite_index collision_layer sprite_index dir)
  match (b.get p).add_sprite_index collision_layer sprite_index dir with
  | none => none
  | some (cell, changed) =>
    some ({ b with grid := b.grid.set (b.pos p) cell
                   row_cache := row_cache
                   col_cache := col_cache }, changed)

/-- Board::add_sprite (src/model/board.rs). -/
def Board.add_sprite (b : Board) (p : Position) (sprite : SpriteState)
    (dir : WantsToMove) : Option (Board × Bool) :=
  b.add_sprite_index p sprite.collision_layer sprite.index dir

/-- Board::remove_collision_layer (src/model/board.rs): the stripe caches
are intentionally left stale. -/
def Board.remove_collision_layer (b : Board) (p : Position)
    (collision_layer : Nat) : Board × Bool :=
  let row_cache := b.row_cache.set p.y
    ((b.row_cache.getD p.y StripeCache.new).remove_collision_layer collision_layer)
  let col_cache := b.col_cache.set p.x
    ((b.col_cache.getD p.x StripeCache.new).remove_collision_layer collision_layer)
  let (cell, changed) := (b.get p).remove_collision_layer collision_layer
  ({ b with grid := b.grid.set (b.pos p) cell
            row_cache := row_cache
            col_cache := col_cache }, changed)

/-- Board::set_wants_to_move (src/model/board.rs). -/
def Board.set_wants_to_move (b : Board) (p : Position) (collision_layer : Nat)
    (dir : WantsToMove) : Option (Board × Bool) :=
  let row_cache := b.row_cache.set p.y
    ((b.row_cache.getD p.y StripeCache.new).set_wants_to_move collision_layer dir)
  let col_cache := b.col_cache.set p.x
    ((b.col_cache.getD p.x StripeCache.new).set_wants_to_move collision_layer dir)
  match (b.get p).set_wants_to_move collision_layer dir with
  | none => none
  | some (cell, changed) =>
    some ({ b with grid := b.grid.set (b.pos p) cell
                   row_cache := row_cache
                   col_cache := col_cache }, changed)

/-- Board::neighbor_positions (src/model/board.rs). -/
def Board.neighbor_positions (b : Board) (p : Position) (dir : CardinalDirection) :
    Neighbors :=
  ⟨b.size, dir, p⟩

/-- Board::neighbor_position (src/model/board.rs). -/
def Board.neighbor_position (b : Board) (p : Position) (dir : CardinalDirection) :
    Option Position :=
  (b.neighbor_positions p dir).nth 1

/-- Board::has_sprite (src/model/board.rs). -/
def Board.has_sprite (b : Board) (p : Position) (sprite : SpriteState) : Bool :=
  (b.get p).has_sprite sprite

/-- Board::matches (src/model/board.rs). -/
def Board.matches (b : Board) (p : Position) (tile : Tile)
    (dir : Option WantsToMove) : Bool :=
  (b.get p).matches tile dir

/-- Board::get_wants_to_move (src/model/board.rs). -/
def Board.get_wants_to_move (b : Board) (p : Position) (collision_layer : Nat) :
    Option WantsToMove :=
  (b.get p).get_wants_to_move collision_layer

/-- Board::as_map (src/model/board.rs): the cell's layer map, here in
ascending layer order (the source iterates the hash map in unspecified
order). -/
def Board.as_map (b : Board) (p : Position) : List (Nat × SpriteAndWantsToMove) :=
  (b.get p).collision_layers

/-- Board::has_collision_layer (src/model/board.rs). -/
def Board.has_collision_layer (b : Board) (p : Position) (collision_layer : Nat) :
    Bool :=
  (b.get p).has_collision_layer collision_layer

/-- Board::get_collision_layer (src/model/board.rs). -/
def Board.get_collision_layer (b : Board) (p : Position) (collision_layer : Nat) :
    Option SpriteAndWantsToMove :=
  (b.get p).get_collision_layer collision_layer

/-- Board::row_cache accessor (src/model/board.rs). -/
def Board.row_cache_at (b : Board) (y : Nat) : StripeCache :=
  b.row_cache.getD y StripeCache.new

/-- Board::col_cache accessor (src/model/board.rs). -/
def Board.col_cache_at (b : Board) (x : Nat) : StripeCache :=
  b.col_cache.getD x StripeCache.new

/-- PartialEq for Board (src/model/board.rs): width, height and grid only;
the stripe caches are ignored. -/
def Board.beq (a b : Board) : Bool :=
  a.width == b.width && a.height == b.height && a.grid == b.grid

/-- Helper for Board::from_tiles: add a list of sprites to one cell, all
Stationary, threading the panic monad of Board::add_sprite. -/
def Board.add_sprites_at (b : Board) (p : Position) (sprites : List SpriteState) :
    Option Board :=
  sprites.foldlM
    (fun (b2 : Board) (sprite : SpriteState) =>
      (b2.add_sprite p sprite .stationary).map Prod.fst) b

/-- Board::from_tiles (src/model/board.rs): build a board from a level
grid, stamping the background tile into every cell, and panicking (none)
on an Or-kind tile. -/
def Board.from_tiles (grid : List (List Tile)) (background_tile : Tile) :
    Option Board :=
  let width := (grid.headD []).length
  let init := Board.new width grid.length
  grid.enum.foldlM
    (fun (board : Board) (yrow : Nat × List Tile) =>
      yrow.2.enum.foldlM
        (fun (board : Board) (xtile : Nat × Tile) => do
          let p : Position := ⟨xtile.1, yrow.1⟩
          let board ← board.add_sprites_at p background_tile.sprites
          match xtile.2.kind with
          | .or => none
          | .and => board.add_sprites_at p xtile.2.sprites)
        board)
    init

/-- Board::from_checkpoint (src/model/board.rs): the checkpoint is a flat
row-major list of cells, each given as its list of sprites; every sprite
enters Stationary and both caches are populated as the cells are built. -/
def Board.from_checkpoint (width height : Nat) (grid : List (List SpriteState)) :
    Board :=
  let step := fun (acc : List Cell × List StripeCache × List StripeCache)
                  (iSprites : Nat × List SpriteState) =>
    let x := iSprites.1 % width
    let y := iSprites.1 / width
    let cell := iSprites.2.foldl
      (fun (c : Cell) (sprite : SpriteState) =>
        match c.add_sprite sprite .stationary with
        | some (c2, _) => c2
        | none => c) Cell.new
    let row_cache := acc.2.1.set y
      (iSprites.2.foldl (fun (rc : StripeCache) (sprite : SpriteState) =>
        rc.add_sprite_index sprite.collision_layer sprite.index .stationary)
        (acc.2.1.getD y StripeCache.new))
    let col_cache := acc.2.2.set x
      (iSprites.2.foldl (fun (cc : StripeCache) (sprite : SpriteState) =>
        cc.add_sprite_index sprite.collision_layer sprite.index .stationary)
        (acc.2.2.getD x StripeCache.new))
    (acc.1 ++ [cell], row_cache, col_cache)
  let built := grid.enum.foldl step
    ([], List.replicate height StripeCache.new, List.replicate width StripeCache.new)
  { width := width, height := height, grid := built.1
    row_cache := built.2.1, col_cache := built.2.2 }

/-- TileWithModifier::matches (src/model/tile.rs): the cell match XORed
with the negation flag. -/
def TileWithModifier.matches (t : TileWithModifier) (b : Board) (p : Position) :
    Bool :=
  t.negated.xor (b.matches p t.tile t.direction)

/-! ## Random number generator

The engine's XorShiftRng is abstracted as an oracle stream of pre-drawn
naturals.  Every random decision in the source flows through
rng.gen_range(0, n); here that takes the head of the stream modulo n.
gen_range with an empty range (n = 0) panics in the rand crate, hence the
Option. -/

/-- Rng oracle: pre-drawn random values, consumed left to right. -/
structure Rng where
  seq : List Nat
deriving Repr, DecidableEq

/-- gen_range(0, n) against the oracle; none models the rand crate's panic
on an empty range. -/
def Rng.gen_range (r : Rng) (n : Nat) : Option (Nat × Rng) :=
  if n = 0 then none else some (r.seq.headD 0 % n, ⟨r.seq.tail⟩)

/-! ## Neighbor

Modelled from the spec: the file src/model/neighbor.rs is declared in
src/model.rs but missing from the source tree.  Spec section 4.4 defines
a Neighbor as an unordered set of TileWithModifier predicates against a
single cell, whose matches is the conjunction of the predicates, and
which, when used as an action, stores per-collision-layer instructions:
remove the layer, add a sprite with a direction, or modify the direction
of the existing sprite; a RandomDir direction on an action is replaced at
apply time by a uniform choice among Up, Down, Left, Right.  The random
tile marker and the magic-OR capture (spec 4.4) are not exercised by any
claim and are not modelled. -/

/-- Modelled from the spec (neighbor.rs is missing): the per-collision-layer
action instruction a Neighbor carries after prepare_actions. -/
inductive NeighborAction where
  | removeLayer
  | addSprite (sprite_index : Nat) (dir : WantsToMove)
  | modifyDir (dir : WantsToMove)
deriving Repr, DecidableEq

/-- Modelled from the spec (neighbor.rs is missing): a Neighbor is the
conjunction of tile predicates over one cell, plus its prepared action
instructions keyed by collision layer. -/
structure Neighbor where
  tiles_with_modifier : List TileWithModifier
  actions : List (Nat × NeighborAction)
deriving Repr, DecidableEq

/-- Neighbor::new: a condition-side neighbor with no prepared actions. -/
def Neighbor.new (tiles : List TileWithModifier) : Neighbor :=
  ⟨tiles, []⟩

/-- Modelled from the spec (neighbor.rs is missing): Neighbor::matches is
the conjunction of its modified-tile predicates. -/
def Neighbor.matches (n : Neighbor) (b : Board) (p : Position) : Bool :=
  n.tiles_with_modifier.all fun t => t.matches b p

/-- Modelled from the spec (neighbor.rs is missing): replace RandomDir by
a uniform draw among Up, Down, Left, Right at apply time. -/
def resolveDir (rng : Rng) (d : WantsToMove) : Option (WantsToMove × Rng) :=
  if d = .randomDir then
    (rng.gen_range 4).map fun kr =>
      (match kr.1 with
        | 0 => WantsToMove.up
        | 1 => WantsToMove.down
        | 2 => WantsToMove.left
        | _ => WantsToMove.right, kr.2)
  else some (d, rng)

/-- Modelled from the spec (neighbor.rs is missing): apply one prepared
action instruction to the cell at a position; returns whether the board
changed.  modify-direction on an empty layer propagates the
Cell::set_wants_to_move panic. -/
def NeighborAction.apply (a : NeighborAction) (collision_layer : Nat) (rng : Rng)
    (b : Board) (p : Position) : Option (Bool × Board × Rng) :=
  match a with
  | .removeLayer =>
    let (b2, changed) := b.remove_collision_layer p collision_layer
    some (changed, b2, rng)
  | .addSprite sprite_index dir => do
    let (dir, rng) ← resolveDir rng dir
    let (b2, changed) ← b.add_sprite_index p collision_layer sprite_index dir
    some (changed, b2, rng)
  | .modifyDir dir => do
    let (dir, rng) ← resolveDir rng dir
    let (b2, changed) ← b.set_wants_to_move p collision_layer dir
    some (changed, b2, rng)

/-- Modelled from the spec (neighbor.rs is missing): Neighbor::evaluate
runs each prepared instruction on its position, accumulating whether any
cell changed. -/
def Neighbor.evaluate (n : Neighbor) (rng : Rng) (b : Board) (p : Position) :
    Option (Bool × Board × Rng) :=
  n.actions.foldlM
    (fun (acc : Bool × Board × Rng) (la : Nat × NeighborAction) => do
      let (changed, b2, rng2) ← la.2.apply la.1 acc.2.2 acc.2.1 p
      some (acc.1 || changed, b2, rng2))
    (false, b, rng)

/-- Modelled from the spec (neighbor.rs is missing): Neighbor carries
precomputed caches consumed by the Bracket filters; a non-negated And tile
contributes its bits to the must-have set, a non-negated Or tile to the
any-of set, and a non-negated direction filter contributes the
(collision layer, direction) pairs of its tile. -/
def Neighbor.populate_cache (n : Neighbor)
    (acc : BitSet × BitSet × List (Nat × WantsToMove)) :
    BitSet × BitSet × List (Nat × WantsToMove) :=
  n.tiles_with_modifier.foldl
    (fun (acc : BitSet × BitSet × List (Nat × WantsToMove)) (t : TileWithModifier) =>
      if t.negated then acc
      else
        let (all_sprites, any_sprites, dirs) := acc
        let all_sprites := match t.tile.kind with
          | .and => t.tile.sprites.foldl (fun (s : BitSet) sp => s.insert sp.index) all_sprites
          | .or => all_sprites
        let any_sprites := match t.tile.kind with
          | .and => any_sprites
          | .or => t.tile.sprites.foldl (fun (s : BitSet) sp => s.insert sp.index) any_sprites
        let dirs := match t.direction with
          | none => dirs
          | some d => t.tile.collision_layers.foldl (fun ds c => dirsInsert ds (c, d)) dirs
        (all_sprites, any_sprites, dirs))
    acc

/-! ## Bracket (src/model/bracket.rs) -/

/-- BracketMatch (src/model/bracket.rs). -/
structure BracketMatch where
  before_positions : Neighbors
  after_positions : Option Neighbors
deriving Repr, DecidableEq

/-- Bracket (src/model/bracket.rs). -/
structure Bracket where
  dir : CardinalDirection
  before_neighbors : List Neighbor
  after_neighbors : List Neighbor
  all_sprites : BitSet
  any_sprites : BitSet
  sprite_movements_present : List (Nat × WantsToMove)
deriving Repr, DecidableEq

/-- Bracket::new (src/model/bracket.rs): precompute the filter caches from
the neighbors. -/
def Bracket.new (dir : CardinalDirection) (before_neighbors : List Neighbor) :
    Bracket :=
  let caches := before_neighbors.foldl (fun acc n => n.populate_cache acc)
    (BitSet.new, BitSet.new, [])
  { dir := dir
    before_neighbors := before_neighbors
    after_neighbors := []
    all_sprites := caches.1
    any_sprites := caches.2.1
    sprite_movements_present := caches.2.2 }

/-- Bracket::new_ellipsis (src/model/bracket.rs). -/
def Bracket.new_ellipsis (dir : CardinalDirection)
    (before_neighbors after_neighbors : List Neighbor) : Bracket :=
  let caches := (before_neighbors ++ after_neighbors).foldl
    (fun acc n => n.populate_cache acc) (BitSet.new, BitSet.new, [])
  { dir := dir
    before_neighbors := before_neighbors
    after_neighbors := after_neighbors
    all_sprites := caches.1
    any_sprites := caches.2.1
    sprite_movements_present := caches.2.2 }

/-- Bracket::matches (src/model/bracket.rs): every before neighbor matches
its position, and, for an ellipsis match, every after neighbor too. -/
def Bracket.matches (br : Bracket) (b : Board) (m : BracketMatch) : Bool :=
  let before := (br.before_neighbors.zip m.before_positions.toList).all
    fun np => np.1.matches b np.2
  match m.after_positions with
  | none => before
  | some aps =>
    before && (br.after_neighbors.zip aps.toList).all fun np => np.1.matches b np.2

/-- Bracket::find_still_matched (src/model/bracket.rs). -/
def Bracket.find_still_matched (b : Board) (self_neighbors : List Neighbor)
    (neighbors : Neighbors) : Bool :=
  (self_neighbors.zip neighbors.toList).all fun np => np.1.matches b np.2

/-- Bracket::inner_find_match (src/model/bracket.rs): the stripe-cache
short-circuit followed by the cell-by-cell check. -/
def Bracket.inner_find_match (br : Bracket) (b : Board) (start_pos : Position)
    (self_neighbors : List Neighbor) : Option Neighbors :=
  let neighbors := b.neighbor_positions start_pos br.dir
  if self_neighbors.length > neighbors.len then none
  else
    let cache := match br.dir with
      | .up | .down => b.col_cache_at start_pos.x
      | .left | .right => b.row_cache_at start_pos.y
    if cache.sprites.contains_any br.any_sprites
        && cache.sprites.contains_all br.all_sprites
        && cache.contains_all_dirs br.sprite_movements_present then
      if Bracket.find_still_matched b self_neighbors neighbors then some neighbors
      else none
    else none

/-- Bracket::find_match (src/model/bracket.rs): all matches anchored at a
start position, one for a simple bracket, one per after-chain anchor for
an ellipsis bracket. -/
def Bracket.find_match (br : Bracket) (b : Board) (start_pos : Position) :
    List BracketMatch :=
  match br.inner_find_match b start_pos br.before_neighbors with
  | none => []
  | some before =>
    if br.after_neighbors.isEmpty then
      [{ before_positions := before, after_positions := none }]
    else
      match before.nth br.before_neighbors.length with
      | none => []
      | some start_neighbor =>
        ((b.neighbor_positions start_neighbor br.dir).toList.map fun start =>
          match br.inner_find_match b start br.after_neighbors with
          | none => none
          | some after =>
            some { before_positions := before, after_positions := some after }).reduceOption

/-- Bracket::evaluate (src/model/bracket.rs): run every neighbor's action
on its position; for an ellipsis bracket a missing after-positions ray
reproduces the source's unwrap panic. -/
def Bracket.evaluate (br : Bracket) (rng : Rng) (b : Board) (m : BracketMatch) :
    Option (Bool × Board × Rng) := do
  let (ch1, b, rng) ← (br.before_neighbors.zip m.before_positions.toList).foldlM
    (fun (acc : Bool × Board × Rng) (np : Neighbor × Position) => do
      let (changed, b2, rng2) ← np.1.evaluate acc.2.2 acc.2.1 np.2
      some (acc.1 || changed, b2, rng2))
    (false, b, rng)
  if br.after_neighbors.isEmpty then some (ch1, b, rng)
  else
    match m.after_positions with
    | none => none
    | some aps => do
      let (ch2, b, rng) ← (br.after_neighbors.zip aps.toList).foldlM
        (fun (acc : Bool × Board × Rng) (np : Neighbor × Position) => do
          let (changed, b2, rng2) ← np.1.evaluate acc.2.2 acc.2.1 np.2
          some (acc.1 || changed, b2, rng2))
        (false, b, rng)
      some (ch1 || ch2, b, rng)

/-- Bracket::is_horizontal (src/model/bracket.rs). -/
def Bracket.is_horizontal (br : Bracket) : Bool :=
  match br.dir with
  | .left | .right => true
  | .up | .down => false

/-- Bracket::matches_cache (src/model/bracket.rs). -/
def Bracket.matches_cache (br : Bracket) (cache : StripeCache) : Bool :=
  cache.sprites.contains_any br.any_sprites
    && cache.sprites.contains_all br.all_sprites
    && cache.contains_all_dirs br.sprite_movements_present

/-! ## Rule, RuleGroup, RuleLoop (src/model/rule.rs) -/

/-- build_permutations (src/model/rule.rs): cartesian product of the
per-bracket match lists, in the source's enumeration order. -/
def build_permutations {T : Type} (cells : List (List T)) : List (List T) :=
  cells.foldl
    (fun (tuples : List (List T)) (row : List T) =>
      row.foldl
        (fun (newtuples : List (List T)) (valtoappend : T) =>
          newtuples ++ tuples.map (fun tuple => tuple ++ [valtoappend]))
        [])
    [[]]

/-- Rule (src/model/rule.rs). -/
structure Rule where
  conditions : List Bracket
  actions : List Bracket
  commands : TriggeredCommands
  random : Bool
  late : Bool
  rigid : Bool
  causes_board_changes : Option Bool
deriving Repr, DecidableEq

/-- Default Rule (src/model/rule.rs derives Default). -/
def Rule.default : Rule :=
  ⟨[], [], TriggeredCommands.new, false, false, false, none⟩

/-- The matches one bracket contributes in Rule::find_matches
(src/model/rule.rs): iterate the rows (horizontal bracket) or columns
(vertical bracket) whose stripe cache passes the filter, then every cell
of the stripe. -/
def bracketAllMatches (c : Bracket) (b : Board) : List BracketMatch :=
  if c.is_horizontal then
    (List.range b.height).flatMap fun y =>
      if c.matches_cache (b.row_cache_at y) then
        (List.range b.width).flatMap fun x => c.find_match b ⟨x, y⟩
      else []
  else
    (List.range b.width).flatMap fun x =>
      if c.matches_cache (b.col_cache_at x) then
        (List.range b.height).flatMap fun y => c.find_match b ⟨x, y⟩
      else []

/-- Rule::find_matches (src/model/rule.rs).  The source loop bails with an
empty overall list as soon as one bracket has no match; the result is
therefore empty when the rule has no condition brackets or some bracket
has no matches, and the per-bracket lists otherwise. -/
def Rule.find_matches (r : Rule) (b : Board) : List (List BracketMatch) :=
  let ls := r.conditions.map fun c => bracketAllMatches c b
  if ls.any List.isEmpty then [] else ls

/-- Rule::has_only_commands (src/model/rule.rs) reads the flag prepared by
prepare_actions and panics when it was never set; callers go through this
match. -/
def Rule.has_only_commands (r : Rule) : Option Bool :=
  match r.causes_board_changes with
  | none => none
  | some causes => some (!causes)

/-- The application of one permutation tuple (src/model/rule.rs, the body
of the loop in Rule::evaluate): re-check each condition bracket on the
current board, and apply it when it still matches. -/
def Rule.apply_perm (pairs : List (Bracket × BracketMatch)) (b : Board) (rng : Rng)
    (changed : Bool) : Option (Bool × Board × Rng) :=
  pairs.foldlM
    (fun (acc : Bool × Board × Rng) (cp : Bracket × BracketMatch) =>
      if cp.1.matches acc.2.1 cp.2 then do
        let (ch, b2, rng2) ← cp.1.evaluate acc.2.2 acc.2.1 cp.2
        some (acc.1 || ch, b2, rng2)
      else some acc)
    (changed, b, rng)

/-- The permutation loop of Rule::evaluate (src/model/rule.rs): for each
tuple check that every condition still matches, apply the brackets, and
stop early when eval_once is set and the board has changed. -/
def Rule.perm_loop (r : Rule) (eval_once : Bool) :
    List (List BracketMatch) → Board → Rng → Bool → Option (Bool × Board × Rng)
  | [], b, rng, changed => some (changed, b, rng)
  | perm :: rest, b, rng, changed => do
    let still := (r.conditions.zip perm).all fun cm => cm.1.matches b cm.2
    let (changed, b, rng) ←
      if still then Rule.apply_perm (r.conditions.zip perm) b rng changed
      else some (changed, b, rng)
    if eval_once && changed then some (changed, b, rng)
    else r.perm_loop eval_once rest b rng changed

/-- Rule::evaluate (src/model/rule.rs).  Returns (board changed, board,
merged commands, rng); none reproduces the has_only_commands panic on an
unprepared rule. -/
def Rule.evaluate (r : Rule) (rng : Rng) (b : Board) (triggered : TriggeredCommands)
    (eval_once : Bool) : Option (Bool × Board × TriggeredCommands × Rng) :=
  let ms := r.find_matches b
  if !ms.isEmpty && ms.all (fun m => !m.isEmpty) then
    let triggered := triggered.merge r.commands
    match r.has_only_commands with
    | none => none
    | some only_commands =>
      if only_commands then some (false, b, triggered, rng)
      else do
        let perms := build_permutations ms
        let (changed, b, rng) ← r.perm_loop eval_once perms b rng false
        some (changed, b, triggered, rng)
  else some (false, b, triggered, rng)

/-- RuleGroup (src/model/rule.rs). -/
structure RuleGroup where
  random : Bool
  rules : List Rule
deriving Repr, DecidableEq

/-- The inner fixpoint loop of the non-random RuleGroup::evaluate
(src/model/rule.rs): keep evaluating one rule until it returns false.
This loop has no bound in the source; fuel exhaustion gives none. -/
def ruleFixpoint (fuel : Nat) (r : Rule) (b : Board) (triggered : TriggeredCommands)
    (rng : Rng) (changed : Bool) : Option (Bool × Board × TriggeredCommands × Rng) :=
  match fuel with
  | 0 => none
  | fuel + 1 => do
    let (ret, b, triggered, rng) ← r.evaluate rng b triggered false
    if ret then ruleFixpoint fuel r b triggered rng true
    else some (changed, b, triggered, rng)

/-- One pass of the non-random RuleGroup::evaluate over the rules of the
matching late mode (src/model/rule.rs). -/
def rulePass (fuel : Nat) (rules : List Rule) (b : Board)
    (triggered : TriggeredCommands) (rng : Rng) :
    Option (Bool × Board × TriggeredCommands × Rng) :=
  rules.foldlM
    (fun (acc : Bool × Board × TriggeredCommands × Rng) (r : Rule) => do
      let (ch, b, triggered, rng) ← ruleFixpoint fuel r acc.2.1 acc.2.2.1 acc.2.2.2 false
      some (acc.1 || ch, b, triggered, rng))
    (false, b, triggered, rng)

/-- The outer loop of the non-random RuleGroup::evaluate
(src/model/rule.rs): repeat passes until a pass neither changes the board
nor adds commands; the source panics after 1000 iterations, modelled by
the iteration budget reaching zero. -/
def ruleGroupLoop (fuel : Nat) (rules : List Rule) (iters : Nat) (board_changed : Bool)
    (b : Board) (triggered : TriggeredCommands) (rng : Rng) :
    Option (Bool × Board × TriggeredCommands × Rng) :=
  match iters with
  | 0 => none
  | iters + 1 => do
    let before := triggered
    let (this_iter, b, triggered, rng) ← rulePass fuel rules b triggered rng
    let board_changed := board_changed || this_iter
    if !this_iter && before = triggered then some (board_changed, b, triggered, rng)
    else ruleGroupLoop fuel rules iters board_changed b triggered rng

/-- The rotation loop of the random RuleGroup::evaluate (src/model/rule.rs):
starting at a random offset, try each rule once until one reports a change
or a new command, for at most rules.len() + 1 probes. -/
def randomGroupLoop (grp : RuleGroup) (late : Bool) (rnd : Nat) :
    Nat → Nat → Bool → Board → TriggeredCommands → Rng →
    Option (Bool × Board × TriggeredCommands × Rng)
  | _, _, true, b, triggered, rng => some (true, b, triggered, rng)
  | 0, _, ret, b, triggered, rng => some (ret, b, triggered, rng)
  | budget + 1, offset, false, b, triggered, rng =>
    if offset > grp.rules.length then some (false, b, triggered, rng)
    else
      let rule := grp.rules.getD ((rnd + offset) % grp.rules.length) Rule.default
      if rule.late == late then do
        let before := triggered
        let (ret, b, triggered, rng) ← rule.evaluate rng b triggered true
        let ret := ret || decide (before ≠ triggered)
        randomGroupLoop grp late rnd budget (offset + 1) ret b triggered rng
      else randomGroupLoop grp late rnd budget (offset + 1) false b triggered rng

/-- RuleGroup::evaluate (src/model/rule.rs). -/
def RuleGroup.evaluate (fuel : Nat) (grp : RuleGroup) (rng : Rng) (b : Board)
    (triggered : TriggeredCommands) (late : Bool) :
    Option (Bool × Board × TriggeredCommands × Rng) :=
  if grp.random then do
    let (rnd, rng) ← rng.gen_range grp.rules.length
    randomGroupLoop grp late rnd (grp.rules.length + 2) 0 false b triggered rng
  else
    ruleGroupLoop fuel (grp.rules.filter fun r => r.late == late) 1000 false b triggered rng

/-- RuleLoop (src/model/rule.rs). -/
structure RuleLoop where
  is_loop : Bool
  rules : List RuleGroup
deriving Repr, DecidableEq

/-- One pass over the groups of a RuleLoop (src/model/rule.rs). -/
def ruleLoopPass (fuel : Nat) (groups : List RuleGroup) (b : Board)
    (triggered : TriggeredCommands) (rng : Rng) (late : Bool) :
    Option (Bool × Board × TriggeredCommands × Rng) :=
  groups.foldlM
    (fun (acc : Bool × Board × TriggeredCommands × Rng) (g : RuleGroup) => do
      let (ch, b, triggered, rng) ← g.evaluate fuel acc.2.2.2 acc.2.1 acc.2.2.1 late
      some (acc.1 || ch, b, triggered, rng))
    (false, b, triggered, rng)

/-- The iteration of RuleLoop::evaluate (src/model/rule.rs): a single pass
when is_loop is false, otherwise passes until one evaluates nothing; the
source panics beyond 1000 iterations, modelled by the budget reaching
zero. -/
def ruleLoopIter (fuel : Nat) (rl : RuleLoop) (late : Bool) :
    Nat → Board → TriggeredCommands → Rng →
    Option (TriggeredCommands × Board × Rng)
  | 0, _, _, _ => none
  | budget + 1, b, triggered, rng => do
    let (evaluated_something, b, triggered, rng) ←
      ruleLoopPass fuel rl.rules b triggered rng late
    if !rl.is_loop then some (triggered, b, rng)
    else if !evaluated_something then some (triggered, b, rng)
    else ruleLoopIter fuel rl late budget b triggered rng

/-- RuleLoop::evaluate (src/model/rule.rs): commands accumulate into a
fresh TriggeredCommands. -/
def RuleLoop.evaluate (fuel : Nat) (rl : RuleLoop) (rng : Rng) (b : Board)
    (late : Bool) : Option (TriggeredCommands × Board × Rng) :=
  ruleLoopIter fuel rl late 1001 b TriggeredCommands.new rng

/-! ## Game (src/model/game.rs) -/

/-- Level (src/model/game.rs). -/
inductive Level where
  | message (text : String)
  | map (grid : List (List Tile))
deriving Repr, DecidableEq

/-- WinConditionOnQualifier (src/model/game.rs). -/
inductive WinConditionOnQualifier where
  | all
  | no
  | some
  | any
deriving Repr, DecidableEq

/-- WinCondition (src/model/game.rs). -/
inductive WinCondition where
  | on (q : WinConditionOnQualifier) (tile on_tile : Tile)
  | simple (q : WinConditionOnQualifier) (tile : Tile)
deriving Repr, DecidableEq

/-- WinCondition::update_acc (src/model/game.rs): bump the pair of counts
at one position. -/
def WinCondition.update_acc (w : WinCondition) (b : Board) (pos : Position)
    (acc : Nat × Nat) : Nat × Nat :=
  match w with
  | .simple _ tile =>
    if b.matches pos tile none then (acc.1 + 1, acc.2) else acc
  | .on _ tile on_tile =>
    if b.matches pos tile none then
      if b.matches pos on_tile none then (acc.1 + 1, acc.2 + 1)
      else (acc.1 + 1, acc.2)
    else acc

/-- WinCondition::satisfies_acc (src/model/game.rs); the Simple/All case is
unreachable in the source and modelled as the panic it is. -/
def WinCondition.satisfies_acc (w : WinCondition) (acc : Nat × Nat) : Option Bool :=
  match w with
  | .simple .no _ => some (acc.1 == 0)
  | .simple .any _ => some (acc.1 > 0)
  | .simple .some _ => some (acc.1 > 0)
  | .simple .all _ => none
  | .on .no _ _ => some (acc.2 == 0)
  | .on .any _ _ => some (acc.2 > 0)
  | .on .some _ _ => some (acc.2 > 0)
  | .on .all _ _ => some (acc.1 == acc.2)

/-- Input (src/model/game.rs). -/
inductive Input where
  | up
  | down
  | left
  | right
  | action
deriving Repr, DecidableEq

/-- build_input_rule (src/model/game.rs): the synthetic rule that marks
every Stationary player tile as wanting to move in the pressed direction.
The prepared neighbor action (prepare_actions lives in the missing
neighbor.rs) is modelled from the spec: same tile on both sides with a
changed direction is a modify-direction instruction on the tile's
collision layers, which makes the rule board-changing. -/
def build_input_rule (player_tile : Tile) (wants_to_move : WantsToMove) : RuleLoop :=
  { is_loop := false
    rules := [{ random := false
                rules := [{
                  causes_board_changes := some true
                  late := false
                  random := false
                  rigid := false
                  commands := TriggeredCommands.new
                  conditions := [Bracket.new .right
                    [{ tiles_with_modifier := [{ random := false, negated := false,
                                                 tile := player_tile,
                                                 direction := some .stationary }]
                       actions := player_tile.collision_layers.map
                         fun c => (c, NeighborAction.modifyDir wants_to_move) }]]
                  actions := [Bracket.new .right
                    [Neighbor.new [{ random := false, negated := false,
                                     tile := player_tile,
                                     direction := some wants_to_move }]]] }] }] }

/-- GameData (src/model/game.rs).  The fields used only by rendering
(title, metadata, sprite pixel maps) are omitted. -/
structure GameData where
  player_tile : Tile
  background_tile : Tile
  rules : List RuleLoop
  levels : List Level
  win_conditions : List WinCondition
  input_rule_up : RuleLoop
  input_rule_down : RuleLoop
  input_rule_left : RuleLoop
  input_rule_right : RuleLoop
  input_rule_action : RuleLoop
deriving Repr, DecidableEq

/-- GameData::new (src/model/game.rs): precompute the five input rules. -/
def GameData.new (player_tile background_tile : Tile) (rules : List RuleLoop)
    (levels : List Level) (win_conditions : List WinCondition) : GameData :=
  { player_tile := player_tile
    background_tile := background_tile
    rules := rules
    levels := levels
    win_conditions := win_conditions
    input_rule_up := build_input_rule player_tile .up
    input_rule_down := build_input_rule player_tile .down
    input_rule_left := build_input_rule player_tile .left
    input_rule_right := build_input_rule player_tile .right
    input_rule_action := build_input_rule player_tile .action }

/-- GameData::evaluate_rules (src/model/game.rs): evaluate every top-level
RuleLoop in order, merging the triggered commands. -/
def GameData.evaluate_rules (fuel : Nat) (g : GameData) (rng : Rng) (b : Board)
    (late : Bool) : Option (TriggeredCommands × Board × Rng) :=
  g.rules.foldlM
    (fun (acc : TriggeredCommands × Board × Rng) (rl : RuleLoop) => do
      let (c, b, rng) ← rl.evaluate fuel acc.2.2 acc.2.1 late
      some (acc.1.merge c, b, rng))
    (TriggeredCommands.new, b, rng)

/-- The scan phase of one motion-resolution pass (src/model/game.rs,
GameData::evaluate_post): the slots pushed onto the to_stationary vector.
The source fills two vectors in one nested loop; the per-vector contents
and order are these flatMaps over the same traversal. -/
def collectStationary (b : Board) : List (Position × Nat) :=
  b.positions_iter.flatMap fun pos =>
    (b.as_map pos).filterMap fun csw =>
      match csw.2.wants_to_move.to_cardinal_direction with
      | none =>
        if csw.2.wants_to_move ≠ .stationary then some (pos, csw.1) else none
      | some dir =>
        match b.neighbor_position pos dir with
        | none => some (pos, csw.1)
        | some _ => none

/-- The scan phase of one motion-resolution pass (src/model/game.rs,
GameData::evaluate_post): the moves pushed onto the to_move vector. -/
def collectMoves (b : Board) : List (Position × Nat × Position × Nat) :=
  b.positions_iter.flatMap fun pos =>
    (b.as_map pos).filterMap fun csw =>
      match csw.2.wants_to_move.to_cardinal_direction with
      | none => none
      | some dir =>
        match b.neighbor_position pos dir with
        | none => none
        | some neighbor_pos =>
          if !b.has_collision_layer neighbor_pos csw.1 then
            some (pos, csw.1, neighbor_pos, csw.2.sprite_index)
          else none

/-- Force a list of slots to Stationary (src/model/game.rs,
GameData::evaluate_post), accumulating whether anything changed. -/
def applyStationaries (b : Board) (l : List (Position × Nat)) (did : Bool) :
    Option (Board × Bool) :=
  l.foldlM
    (fun (acc : Board × Bool) (pc : Position × Nat) => do
      let (b2, ch) ← acc.1.set_wants_to_move pc.1 pc.2 .stationary
      some (b2, acc.2 || ch))
    (b, did)

/-- Apply the scheduled moves (src/model/game.rs, GameData::evaluate_post):
each move re-checks that the destination layer is still free. -/
def applyMoves (b : Board) (l : List (Position × Nat × Position × Nat)) (did : Bool) :
    Option (Board × Bool) :=
  l.foldlM
    (fun (acc : Board × Bool) (m : Position × Nat × Position × Nat) =>
      if !acc.1.has_collision_layer m.2.2.1 m.2.1 then do
        let (b2, ch1) := acc.1.remove_collision_layer m.1 m.2.1
        let (b3, ch2) ← b2.add_sprite_index m.2.2.1 m.2.1 m.2.2.2 .stationary
        some (b3, acc.2 || ch1 || ch2)
      else some acc)
    (b, did)

/-- The slots the final cleanup of GameData::evaluate_post collects: every
slot still wanting to move. -/
def collectNonStationary (b : Board) : List (Position × Nat) :=
  b.positions_iter.flatMap fun pos =>
    (b.as_map pos).filterMap fun csw =>
      if csw.2.wants_to_move ≠ .stationary then some (pos, csw.1) else none

/-- The final cleanup of GameData::evaluate_post (src/model/game.rs): every
slot still wanting to move was blocked and is forced Stationary. -/
def finalCleanup (b : Board) : Option Board := do
  let (b2, _) ← applyStationaries b (collectNonStationary b) false
  some b2

/-- The pass loop of GameData::evaluate_post (src/model/game.rs): repeat
scan-and-apply until a pass changes nothing; the loop has no bound in the
source, so exhausting the fuel gives none. -/
def evaluatePostLoop (b : Board) : Nat → Option Board
  | 0 => none
  | fuel + 1 =>
    let to_stationary := collectStationary b
    let to_move := collectMoves b
    (do
      let (b, did) ← applyStationaries b to_stationary false
      let (b, did) ← applyMoves b to_move did
      if did then evaluatePostLoop b fuel else finalCleanup b)

/-- GameData::evaluate_post (src/model/game.rs): motion resolution. -/
def GameData.evaluate_post (fuel : Nat) (_g : GameData) (b : Board) : Option Board :=
  evaluatePostLoop b fuel

/-- GameData::check_win_conditions (src/model/game.rs): fold the counts
over every position, then require every condition satisfied, with the
source's short-circuit (a later unreachable Simple/All panic is never hit
once a condition fails). -/
def winAllSat : List (WinCondition × (Nat × Nat)) → Option Bool
  | [] => some true
  | (w, acc) :: rest => do
    let s ← w.satisfies_acc acc
    if s then winAllSat rest else some false

/-- GameData::check_win_conditions (src/model/game.rs). -/
def GameData.check_win_conditions (g : GameData) (b : Board) : Option Bool :=
  if g.win_conditions.length = 0 then some false
  else
    let initial := g.win_conditions.map fun _ => ((0 : Nat), (0 : Nat))
    let accumulated := b.positions_iter.foldl
      (fun accs pos =>
        (g.win_conditions.zip accs).map fun wa => wa.1.update_acc b pos wa.2)
      initial
    winAllSat (g.win_conditions.zip accumulated)

/-- GameData::evaluate (src/model/game.rs): the tick pipeline.  The
non-late pass runs first and short-circuits on cancel; then motion
resolution, the late pass, and the win-condition check. -/
def GameData.evaluate (fuel : Nat) (g : GameData) (rng : Rng) (b : Board) :
    Option (TriggeredCommands × Board × Rng) := do
  let (t, b, rng) ← g.evaluate_rules fuel rng b false
  if t.cancel then some (t, b, rng)
  else do
    let b ← g.evaluate_post fuel b
    let (t2, b, rng) ← g.evaluate_rules fuel rng b true
    let t := t.merge t2
    let w ← g.check_win_conditions b
    some ({ t with win := t.win || w }, b, rng)

/-- GameData::evaluate_player_input (src/model/game.rs): run the
precompiled input rule once; its triggered commands are discarded. -/
def GameData.evaluate_player_input (fuel : Nat) (g : GameData) (rng : Rng)
    (b : Board) (input : Input) : Option (Board × Rng) :=
  let input_rule := match input with
    | .up => g.input_rule_up
    | .down => g.input_rule_down
    | .left => g.input_rule_left
    | .right => g.input_rule_right
    | .action => g.input_rule_action
  (input_rule.evaluate fuel rng b false).map fun r => (r.2.1, r.2.2)

/-- GameData::to_board (src/model/game.rs): panics (none) on a message
level and propagates the Board::from_tiles panic. -/
def GameData.to_board (g : GameData) (level : Level) : Option Board :=
  match level with
  | .map grid => Board.from_tiles grid g.background_tile
  | .message _ => none

/-! ## Engine (src/engine.rs) -/

/-- EngineInput (src/engine.rs). -/
inductive EngineInput where
  | up
  | down
  | left
  | right
  | action
  | undo
  | restart
deriving Repr, DecidableEq

/-- BoardOrMessage (src/engine.rs). -/
inductive BoardOrMessage where
  | message (text : String)
  | board (b : Board)
deriving Repr, DecidableEq

/-- TickResult (src/engine.rs). -/
structure TickResult where
  changed : Bool
  completed_level : Option Nat
  checkpoint : Option Board
  accepting_input : Bool
  sfx : Bool
deriving Repr, DecidableEq

/-- TickResult::empty (src/engine.rs). -/
def TickResult.empty : TickResult :=
  ⟨false, none, none, true, false⟩

/-- TickResult::affected (src/engine.rs). -/
def TickResult.affected (t : TickResult) : TickResult :=
  { t with changed := true }

/-- TickResult::win (src/engine.rs). -/
def TickResult.win_at (t : TickResult) (level : Nat) : TickResult :=
  { t with completed_level := some level }

/-- Engine (src/engine.rs).  The debug_rules flag only controls screen
dumping and is omitted. -/
structure Engine where
  rng : Rng
  game_data : GameData
  current_level : BoardOrMessage
  undo_stack : List Board
  current_level_num : Nat
  pending_message : Option String
deriving Repr, DecidableEq

/-- Engine::from_checkpoint (src/engine.rs); the model takes the rng
oracle instead of the fixed xorshift seed. -/
def Engine.from_checkpoint (rng : Rng) (game_data : GameData)
    (current_level_num : Nat) (checkpoint : Board) : Engine :=
  { rng := rng
    game_data := game_data
    current_level := .board checkpoint
    undo_stack := []
    current_level_num := current_level_num
    pending_message := none }

/-- The input dispatch at the start of the board branch of Engine::tick
(src/engine.rs): clone the board, optionally run the input rule, or
replace the clone from the undo stack (Undo pops; Restart copies the
first entry).  Returns the working board, the undo stack after a
possible pop, the rng, and whether a direction or action was pressed. -/
def Engine.apply_input (fuel : Nat) (g : GameData) (rng : Rng) (board : Board)
    (stack : List Board) :
    Option EngineInput → Option (Board × List Board × Rng × Bool)
  | none => some (board, stack, rng, false)
  | some .up => (g.evaluate_player_input fuel rng board .up).map
      fun br => (br.1, stack, br.2, true)
  | some .down => (g.evaluate_player_input fuel rng board .down).map
      fun br => (br.1, stack, br.2, true)
  | some .left => (g.evaluate_player_input fuel rng board .left).map
      fun br => (br.1, stack, br.2, true)
  | some .right => (g.evaluate_player_input fuel rng board .right).map
      fun br => (br.1, stack, br.2, true)
  | some .action => (g.evaluate_player_input fuel rng board .action).map
      fun br => (br.1, stack, br.2, true)
  | some .restart =>
    match stack.head? with
    | none => some (board, stack, rng, false)
    | some b => some (b, stack, rng, false)
  | some .undo =>
    match stack.getLast? with
    | none => some (board, stack, rng, false)
    | some b => some (b, stack.dropLast, rng, false)

/-- Engine::tick (src/engine.rs). -/
def Engine.tick (fuel : Nat) (e : Engine) (input : Option EngineInput) :
    Option (Engine × TickResult) :=
  match e.pending_message with
  | some _ =>
    match input with
    | some .action => some ({ e with pending_message := none }, TickResult.empty.affected)
    | _ => some (e, TickResult.empty)
  | none =>
    match e.current_level with
    | .message _ =>
      match input with
      | some .action =>
        some (e, (TickResult.empty.affected).win_at e.current_level_num)
      | _ => some (e, TickResult.empty)
    | .board board => do
      let (new, stack, rng, pressed) ←
        Engine.apply_input fuel e.game_data e.rng board e.undo_stack input
      let (t, new, rng) ← e.game_data.evaluate fuel rng new
      if t.cancel then
        some ({ e with rng := rng, undo_stack := stack },
          { changed := false
            completed_level := if t.win then some e.current_level_num else none
            checkpoint := if t.checkpoint then some board else none
            accepting_input := !t.again
            sfx := t.sfx })
      else
        let pending := t.message
        let stack := if t.checkpoint then [] else stack
        let changed := !Board.beq new board
        let stack :=
          if pressed && changed then
            (if stack.length > 100 then stack.take 1 ++ stack.drop 50 else stack) ++ [board]
          else stack
        some ({ e with rng := rng, undo_stack := stack, pending_message := pending,
                       current_level := .board new },
          { changed := changed
            completed_level := if t.win then some e.current_level_num else none
            checkpoint := if t.checkpoint then some new else none
            accepting_input := !t.again
            sfx := t.sfx })

/-! ## Specification-side definitions

These definitions restate properties in the spec's vocabulary; theorems
below relate them to the embedded code. -/

/-- The content of one (cell, collision layer) slot of a board, addressed
by row-major cell index (hash-map lookup semantics). -/
def Board.slot (b : Board) (i c : Nat) : Option SpriteAndWantsToMove :=
  layersLookup (b.grid.getD i Cell.new).collision_layers c

/-- Every occupied slot of the board has wants_to_move Stationary. -/
def Board.all_stationary (b : Board) : Prop :=
  ∀ i c sw, b.slot i c = some sw → sw.wants_to_move = WantsToMove.stationary

/-- The stripe caches are a superset of the stripes' actual content: for
every occupied slot, the sprite id is in the row and column sprite caches
and the (layer, direction) pair is in the row and column dirs caches. -/
def Board.cache_superset (b : Board) : Prop :=
  ∀ i c sw, b.slot i c = some sw →
    (b.row_cache_at (i / b.width)).sprites.contains sw.sprite_index = true ∧
    (c, sw.wants_to_move) ∈ (b.row_cache_at (i / b.width)).dirs ∧
    (b.col_cache_at (i % b.width)).sprites.contains sw.sprite_index = true ∧
    (c, sw.wants_to_move) ∈ (b.col_cache_at (i % b.width)).dirs

/-! ## Claim C9: BitSet boundary behavior -/

/-- C9: for every BitSet s, contains_any, contains_all and contains_none
against the empty BitSet (as produced by BitSet::new) all return true. -/
theorem bitset_empty_queries (s : BitSet) :
    s.contains_any BitSet.new = true ∧
    s.contains_all BitSet.new = true ∧
    s.contains_none BitSet.new = true := by
  refine ⟨?_, ?_, ?_⟩
  · simp [BitSet.contains_any, BitSet.is_empty, BitSet.new]
  · show (List.range BUCKET_COUNT).all _ = true
    have hr : List.range BUCKET_COUNT = [0, 1, 2, 3] := by decide
    simp [hr, BitSet.new, List.getD, Nat.and_zero]
  · show (List.range BUCKET_COUNT).all _ = true
    have hr : List.range BUCKET_COUNT = [0, 1, 2, 3] := by decide
    simp [hr, BitSet.new, List.getD, Nat.and_zero]

/-! ## Claim C10: Board equality ignores the stripe caches -/

/-- C10: the Board PartialEq compares exactly width, height and the grid of
cells; in particular two boards with equal dimensions and grids but
arbitrary (for instance stale) caches compare equal, so the changed flag of
Engine::tick and the undo comparisons, which use this equality, are decided
by cell contents alone. -/
theorem board_eq_ignores_caches :
    (∀ a b : Board,
      Board.beq a b = true ↔ (a.width = b.width ∧ a.height = b.height ∧ a.grid = b.grid)) ∧
    (∀ (w h : Nat) (g : List Cell) (rc cc rc2 cc2 : List StripeCache),
      Board.beq ⟨w, h, g, rc, cc⟩ ⟨w, h, g, rc2, cc2⟩ = true) := by
  constructor
  · intro a b
    simp [Board.beq, Bool.and_eq_true, and_assoc]
  · intro w h g rc cc rc2 cc2
    simp [Board.beq]

/-! ## Concrete fixtures

Small concrete games and boards used by witnesses and counterexamples. -/

/-- Fixture: the player sprite, index 0 in collision layer 0. -/
def cPlayer : SpriteState := ⟨0, 0⟩

/-- Fixture: an And tile holding the player sprite. -/
def cPlayerTile : Tile := Tile.new .and "player" [cPlayer]

/-- Fixture: an empty background tile (stamps nothing into cells). -/
def cBackgroundTile : Tile := Tile.new .and "background" []

/-- Fixture: a 1 by 1 board with the player at the origin, Stationary. -/
def cBoard1 : Board :=
  (((Board.new 1 1).add_sprite ⟨0, 0⟩ cPlayer .stationary).map Prod.fst).getD (Board.new 1 1)

/-- Fixture: a 2 by 1 board with the player at the origin, Stationary. -/
def cBoard2 : Board :=
  (((Board.new 2 1).add_sprite ⟨0, 0⟩ cPlayer .stationary).map Prod.fst).getD (Board.new 2 1)

/-- Fixture: a 3 by 1 board with the player at the origin, Stationary. -/
def cBoard3 : Board :=
  (((Board.new 3 1).add_sprite ⟨0, 0⟩ cPlayer .stationary).map Prod.fst).getD (Board.new 3 1)

/-- Fixture: the prepared rule for player -> RIGHT player: the condition
neighbor matches any player and carries the modify-direction instruction
prepare_actions derives for it. -/
def cMoveRightRule : Rule :=
  { conditions := [Bracket.new .right
      [{ tiles_with_modifier := [{ random := false, negated := false,
                                   tile := cPlayerTile, direction := none }]
         actions := [(0, NeighborAction.modifyDir .right)] }]]
    actions := [Bracket.new .right [Neighbor.new
      [{ random := false, negated := false, tile := cPlayerTile,
         direction := some .right }]]]
    commands := TriggeredCommands.new
    random := false, late := false, rigid := false
    causes_board_changes := some true }

/-- Fixture: a game whose only rule is player -> RIGHT player. -/
def cGameMoveRight : GameData :=
  GameData.new cPlayerTile cBackgroundTile [⟨false, [⟨false, [cMoveRightRule]⟩]⟩] [] []

/-- Fixture: a game with no rules and no win conditions. -/
def cGameNoRules : GameData :=
  GameData.new cPlayerTile cBackgroundTile [] [] []

/-! ## Claim C7: commands-only rules -/

/-- C7 (amended): a rule whose causes_board_changes flag is false always
evaluates to false with the board untouched; the commands are merged into
the accumulator exactly when find_matches is nonempty, which happens
exactly when the rule has at least one condition bracket and every bracket
yields at least one match (a rule with zero condition brackets never
merges). -/
theorem commands_only_rule_evaluate (r : Rule) (rng : Rng) (b : Board)
    (triggered : TriggeredCommands) (eval_once : Bool)
    (h : r.causes_board_changes = some false) :
    r.evaluate rng b triggered eval_once =
      some (false, b,
        (if r.find_matches b ≠ [] then triggered.merge r.commands else triggered), rng) ∧
    (r.find_matches b ≠ [] ↔
      (r.conditions ≠ [] ∧ ∀ c ∈ r.conditions, bracketAllMatches c b ≠ [])) := by
  have hnonempty : r.find_matches b = [] ∨
      (r.find_matches b).all (fun m => !m.isEmpty) = true := by
    unfold Rule.find_matches
    by_cases hany : (r.conditions.map fun c => bracketAllMatches c b).any List.isEmpty
    · left; simp [hany]
    · right
      simp only [hany, if_neg]
      simp only [List.any_eq_true, not_exists, not_and] at hany
      simp only [List.all_eq_true, Bool.not_eq_true']
      intro m hm
      by_cases hempty : m.isEmpty
      · exact absurd (hany m hm hempty) (by simp)
      · simpa using hempty
  constructor
  · unfold Rule.evaluate
    rcases hnonempty with hempty | hall
    · simp [hempty]
    · by_cases hne : r.find_matches b = []
      · simp [hne]
      · have hb : (!(r.find_matches b).isEmpty &&
            (r.find_matches b).all fun m => !m.isEmpty) = true := by
          simp [hall, List.isEmpty_iff, hne]
        simp only [hb, Rule.has_only_commands, h, Bool.not_false, if_true]
        simp [hne]
  · unfold Rule.find_matches
    by_cases hc : r.conditions = []
    · simp [hc]
    · by_cases hany : (r.conditions.map fun c => bracketAllMatches c b).any List.isEmpty
      · simp only [hany, if_pos]
        simp only [List.any_eq_true, List.mem_map] at hany
        obtain ⟨m, ⟨c, hcmem, rfl⟩, hme⟩ := hany
        simp only [ne_eq, not_true_eq_false, false_iff, not_and, not_forall]
        intro _
        exact ⟨c, hcmem, by simpa [List.isEmpty_iff] using hme⟩
      · simp only [hany, if_neg, Bool.false_eq_true, not_false_iff]
        constructor
        · intro _
          refine ⟨hc, fun c hcmem => ?_⟩
          simp only [List.any_eq_true, List.mem_map, not_exists, not_and] at hany
          intro hcontra
          exact hany (bracketAllMatches c b) ⟨c, hcmem, rfl⟩ (by simp [hcontra])
        · intro _
          simp [hc]

/-- C7 counterexample: a commands-only rule with zero condition brackets
and a win command; every condition bracket vacuously yields a match, yet
evaluate leaves the triggered accumulator unchanged (the win command is
not merged), refuting the claim as stated. -/
def cEmptyCondRule : Rule :=
  { conditions := [], actions := []
    commands := { TriggeredCommands.new with win := true }
    random := false, late := false, rigid := false
    causes_board_changes := some false }

/-- C7 counterexample theorem: see cEmptyCondRule. -/
theorem commands_only_rule_empty_conditions_no_merge :
    cEmptyCondRule.causes_board_changes = some false ∧
    cEmptyCondRule.commands.win = true ∧
    (∀ c ∈ cEmptyCondRule.conditions, bracketAllMatches c (Board.new 1 1) ≠ []) ∧
    cEmptyCondRule.evaluate ⟨[]⟩ (Board.new 1 1) TriggeredCommands.new false =
      some (false, Board.new 1 1, TriggeredCommands.new, ⟨[]⟩) := by
  refine ⟨rfl, rfl, ?_, rfl⟩
  intro c hc
  simp [cEmptyCondRule] at hc

/-- Fixture: a commands-only rule, one empty-neighbor condition bracket,
win command. -/
def cWinRule : Rule :=
  { conditions := [Bracket.new .right []], actions := []
    commands := { TriggeredCommands.new with win := true }
    random := false, late := false, rigid := false
    causes_board_changes := some false }

/-- C7 witness: the amended theorem applied to a concrete commands-only
rule that matches a 1 by 1 board and merges its win command. -/
theorem commands_only_rule_evaluate_witness :
    cWinRule.evaluate ⟨[]⟩ (Board.new 1 1) TriggeredCommands.new false =
      some (false, Board.new 1 1,
        { TriggeredCommands.new with win := true }, ⟨[]⟩) := by
  have h := (commands_only_rule_evaluate cWinRule ⟨[]⟩ (Board.new 1 1)
    TriggeredCommands.new false rfl).1
  rw [h, if_pos (by decide)]
  rfl

/-! ## Claim C2: the cancel command -/

/-- C2 (amended): when rule evaluation of a tick triggers cancel, the
engine state is left untouched up to the rng and the input pre-processing
of the undo stack (an Undo input has already popped its snapshot), the
mutated board is discarded, no message is set, and the TickResult reports
changed = false; however completed_level and checkpoint are not
suppressed: they are emitted from the commands merged before the cancel
short-circuit. -/
theorem cancel_tick_discards_board (fuel : Nat) (e : Engine) (board : Board)
    (input : Option EngineInput) (new0 : Board) (stack0 : List Board) (rng1 : Rng)
    (pressed : Bool) (t : TriggeredCommands) (b2 : Board) (rng2 : Rng)
    (hmsg : e.pending_message = none)
    (hlevel : e.current_level = .board board)
    (happly : Engine.apply_input fuel e.game_data e.rng board e.undo_stack input =
      some (new0, stack0, rng1, pressed))
    (heval : e.game_data.evaluate fuel rng1 new0 = some (t, b2, rng2))
    (hcancel : t.cancel = true) :
    e.tick fuel input = some
      ({ e with rng := rng2, undo_stack := stack0 },
       { changed := false
         completed_level := if t.win then some e.current_level_num else none
         checkpoint := if t.checkpoint then some board else none
         accepting_input := !t.again
         sfx := t.sfx }) := by
  unfold Engine.tick
  rw [hmsg, hlevel]
  simp [happly, heval, hcancel]

/-- Fixture: a commands-only rule triggering CANCEL, WIN and CHECKPOINT at
once; its single condition bracket has no neighbors and matches any board. -/
def cCancelWinRule : Rule :=
  { conditions := [Bracket.new .right []], actions := []
    commands := { TriggeredCommands.new with cancel := true, win := true, checkpoint := true }
    random := false, late := false, rigid := false
    causes_board_changes := some false }

/-- Fixture: a game whose only rule is cCancelWinRule. -/
def cGameCancel : GameData :=
  GameData.new cPlayerTile cBackgroundTile [⟨false, [⟨false, [cCancelWinRule]⟩]⟩] [] []

/-- Fixture: an engine on cGameCancel with one undo snapshot. -/
def cEngineCancel : Engine :=
  { rng := ⟨[]⟩
    game_data := cGameCancel
    current_level := .board cBoard2
    undo_stack := [cBoard3]
    current_level_num := 0
    pending_message := none }

/-- C2 counterexample: a cancelled tick returns changed = false and keeps
the current board, but completed_level = some 0 and checkpoint = some
(current board) are not suppressed, and the Undo input's pop of the
snapshot persists — so the tick is not a complete no-op with all other
command side-effects suppressed, refuting the claim as stated. -/
theorem cancel_tick_emits_win :
    ((Engine.tick 10 cEngineCancel (some .undo)).map fun et =>
      (et.2.changed, et.2.completed_level, et.2.checkpoint,
       et.1.undo_stack, decide (et.1.current_level = BoardOrMessage.board cBoard2),
       et.1.pending_message)) =
    some (false, some 0, some cBoard2, [], true, none) := by
  rfl

/-- C2 witness: the amended cancel theorem applied to a concrete engine
whose game triggers CANCEL, WIN and CHECKPOINT on every tick. -/
theorem cancel_tick_discards_board_witness :
    Engine.tick 10 cEngineCancel none = some
      (cEngineCancel,
       { changed := false, completed_level := some 0, checkpoint := some cBoard2,
         accepting_input := true, sfx := false }) := by
  have h := cancel_tick_discards_board 10 cEngineCancel cBoard2 none cBoard2 [cBoard3]
    ⟨[]⟩ false
    { TriggeredCommands.new with cancel := true, win := true, checkpoint := true }
    cBoard2 ⟨[]⟩ rfl rfl (by rfl) (by rfl) rfl
  rw [h]
  rfl

/-! ## Claim C6: the undo-stack push and drain -/

/-- C6: during a non-cancelled tick on a Map level, the pre-tick board is
pushed (at the end of the stack) exactly when a direction or Action input
was pressed and the evaluated board differs from the pre-tick board under
the cache-ignoring board equality; the push lands on the stack left by the
checkpoint clear, and when that stack holds more than 100 entries, exactly
the entries at indices 1 to 49 are dropped first, preserving index 0 and
the tail from index 50 on. -/
theorem tick_undo_stack_push (fuel : Nat) (e : Engine) (board : Board)
    (input : Option EngineInput) (new0 : Board) (stack0 : List Board) (rng1 : Rng)
    (pressed : Bool) (t : TriggeredCommands) (b2 : Board) (rng2 : Rng)
    (hmsg : e.pending_message = none)
    (hlevel : e.current_level = .board board)
    (happly : Engine.apply_input fuel e.game_data e.rng board e.undo_stack input =
      some (new0, stack0, rng1, pressed))
    (heval : e.game_data.evaluate fuel rng1 new0 = some (t, b2, rng2))
    (hcancel : t.cancel = false) :
    (pressed = true ↔
      (input = some .up ∨ input = some .down ∨ input = some .left ∨
       input = some .right ∨ input = some .action)) ∧
    ∃ e2 tr, e.tick fuel input = some (e2, tr) ∧
      e2.undo_stack =
        (let s1 := if t.checkpoint then [] else stack0
         if pressed && !Board.beq b2 board then
           (if s1.length > 100 then s1.take 1 ++ s1.drop 50 else s1) ++ [board]
         else s1) := by
  constructor
  · cases input with
    | none =>
      simp only [Engine.apply_input, Option.some.injEq, Prod.mk.injEq] at happly
      simp [← happly.2.2.2]
    | some i =>
      cases i
      case up | down | left | right | action =>
        simp only [Engine.apply_input, Option.map_eq_some'] at happly
        obtain ⟨a, _, hEq⟩ := happly
        simp only [Prod.mk.injEq] at hEq
        simp [← hEq.2.2.2]
      case restart =>
        simp only [Engine.apply_input] at happly
        rcases hhead : e.undo_stack.head? with _ | b0 <;> rw [hhead] at happly <;>
          (simp only [Option.some.injEq, Prod.mk.injEq] at happly
           simp [← happly.2.2.2])
      case undo =>
        simp only [Engine.apply_input] at happly
        rcases hlast : e.undo_stack.getLast? with _ | b0 <;> rw [hlast] at happly <;>
          (simp only [Option.some.injEq, Prod.mk.injEq] at happly
           simp [← happly.2.2.2])
  · refine ⟨{ e with
        rng := rng2
        undo_stack :=
          (let s1 : List Board := if t.checkpoint then [] else stack0;
            if pressed && !Board.beq b2 board then
              (if s1.length > 100 then s1.take 1 ++ s1.drop 50 else s1) ++ [board]
            else s1)
        pending_message := t.message
        current_level := .board b2 },
      { changed := !Board.beq b2 board
        completed_level := if t.win then some e.current_level_num else none
        checkpoint := if t.checkpoint then some b2 else none
        accepting_input := !t.again
        sfx := t.sfx }, ?_, rfl⟩
    unfold Engine.tick
    rw [hmsg, hlevel]
    simp [happly, heval, hcancel]

/-- Fixture: an engine on cGameNoRules starting at cBoard2, no snapshots. -/
def cEngineNoRules : Engine :=
  Engine.from_checkpoint ⟨[]⟩ cGameNoRules 0 cBoard2

/-- Fixture: cBoard2 after the Right input rule marked the player. -/
def cAfterRight : Board :=
  ((cGameNoRules.evaluate_player_input 20 ⟨[]⟩ cBoard2 .right).map Prod.fst).getD cBoard2

/-- Fixture: cAfterRight after full rule evaluation (the player has moved
one cell to the right and is Stationary again). -/
def cBoard2Moved : Board :=
  ((cGameNoRules.evaluate 20 ⟨[]⟩ cAfterRight).map fun r => r.2.1).getD cBoard2

/-- C6 witness: the push theorem applied to a concrete Right tick that
changes the board; the pre-tick board is pushed as the single stack
entry. -/
theorem tick_undo_stack_push_witness :
    ((Engine.tick 20 cEngineNoRules (some .right)).map fun et => et.1.undo_stack) =
      some [cBoard2] := by
  obtain ⟨_, e2, tr, htick, hstack⟩ :=
    tick_undo_stack_push 20 cEngineNoRules cBoard2 (some .right) cAfterRight []
      ⟨[]⟩ true TriggeredCommands.new cBoard2Moved ⟨[]⟩
      rfl rfl (by rfl) (by rfl) rfl
  rw [htick]
  simp only [Option.map_some']
  rw [hstack]
  rfl

/-! ## Claim C1: undo -/

/-- C1 (amended): tick(Undo) pops the top snapshot of the undo stack (or
clones the current board when the stack is empty) and then runs a full
rule-evaluation pass on it.  Provided that evaluation leaves the popped
board unchanged and does not cancel, the current board after tick(Undo) is
exactly that snapshot — bit-for-bit restoration — and with an empty stack
the current board is unchanged; the stack loses its last entry (and is
cleared entirely when the evaluation triggered checkpoint). -/
theorem tick_undo_restores (fuel : Nat) (e : Engine) (board : Board)
    (t : TriggeredCommands) (rng2 : Rng)
    (hmsg : e.pending_message = none)
    (hlevel : e.current_level = .board board)
    (heval : e.game_data.evaluate fuel e.rng (e.undo_stack.getLast?.getD board) =
      some (t, e.undo_stack.getLast?.getD board, rng2))
    (hcancel : t.cancel = false) :
    ∃ tr, e.tick fuel (some .undo) = some
      ({ e with
          rng := rng2
          undo_stack := if t.checkpoint then [] else e.undo_stack.dropLast
          pending_message := t.message
          current_level := .board (e.undo_stack.getLast?.getD board) }, tr) := by
  have happly : Engine.apply_input fuel e.game_data e.rng board e.undo_stack
      (some .undo) =
      some (e.undo_stack.getLast?.getD board, e.undo_stack.dropLast, e.rng, false) := by
    simp only [Engine.apply_input]
    rcases hlast : e.undo_stack.getLast? with _ | b0
    · have : e.undo_stack = [] := by
        cases h : e.undo_stack with
        | nil => rfl
        | cons a l => rw [h] at hlast; simp [List.getLast?_concat] at hlast
      simp [this]
    · simp
  refine ⟨{ changed := !Board.beq (e.undo_stack.getLast?.getD board) board
            completed_level := if t.win then some e.current_level_num else none
            checkpoint := if t.checkpoint then some (e.undo_stack.getLast?.getD board) else none
            accepting_input := !t.again
            sfx := t.sfx }, ?_⟩
  unfold Engine.tick
  rw [hmsg, hlevel]
  simp [happly, heval, hcancel]

/-- Fixture: an engine on the move-right game starting at cBoard3 with an
empty undo stack. -/
def cEngineMove : Engine :=
  Engine.from_checkpoint ⟨[]⟩ cGameMoveRight 0 cBoard3

/-- C1 counterexample: on the move-right game, a Right tick changes the
board and pushes the pre-tick board cBoard3; the subsequent tick(Undo)
pops that snapshot but re-runs rule evaluation on it, so the current board
is not the snapshot (the claim's bit-for-bit restoration fails); and on an
empty undo stack tick(Undo) still mutates the current board through rule
evaluation (the claim's no-op fails). -/
theorem tick_undo_not_restore :
    (((Engine.tick 30 cEngineMove (some .right)).bind fun et =>
        (Engine.tick 30 et.1 (some .undo)).map fun et2 =>
          (et.2.changed, et.1.undo_stack,
           decide (et2.1.current_level = BoardOrMessage.board cBoard3))) =
      some (true, [cBoard3], false)) ∧
    (((Engine.tick 30 cEngineMove (some .undo)).map fun et =>
        (cEngineMove.undo_stack,
         decide (et.1.current_level = BoardOrMessage.board cBoard3))) =
      some ([], false)) := by
  constructor
  · rfl
  · rfl

/-- Fixture: an engine on the rule-free game holding one snapshot
(cBoard2) under a different current board. -/
def cEngineUndo : Engine :=
  { rng := ⟨[]⟩
    game_data := cGameNoRules
    current_level := .board cBoard3
    undo_stack := [cBoard2]
    current_level_num := 0
    pending_message := none }

/-- C1 witness: the amended undo theorem applied to a rule-free game,
where evaluation fixes every quiesced board; tick(Undo) restores the
snapshot cBoard2 and empties the stack. -/
theorem tick_undo_restores_witness :
    ((Engine.tick 10 cEngineUndo (some .undo)).map fun et =>
      (et.1.current_level, et.1.undo_stack)) =
      some (BoardOrMessage.board cBoard2, []) := by
  obtain ⟨tr, htick⟩ := tick_undo_restores 10 cEngineUndo cBoard3
    TriggeredCommands.new ⟨[]⟩ rfl rfl (by rfl) rfl
  rw [htick]
  rfl

/-! ## Helper lemmas on the collision-layer association list -/

/-- Lookup after insert: the inserted key maps to the new value, others are
untouched. -/
theorem layersLookup_layersInsert (l : List (Nat × SpriteAndWantsToMove)) (k : Nat)
    (v : SpriteAndWantsToMove) (k2 : Nat) :
    layersLookup (layersInsert l k v) k2 =
      if k2 = k then some v else layersLookup l k2 := by
  induction l with
  | nil =>
    simp only [layersInsert, layersLookup]
  | cons hd tl ih =>
    obtain ⟨k0, v0⟩ := hd
    simp only [layersInsert]
    by_cases h1 : k < k0
    · simp [if_pos h1, layersLookup]
    · by_cases h3 : k = k0
      · subst h3
        simp only [if_neg h1, if_pos rfl, layersLookup]
        by_cases h2 : k2 = k <;> simp [h2]
      · simp only [if_neg h1, if_neg h3, layersLookup]
        by_cases h2 : k2 = k0
        · subst h2
          simp [Ne.symm h3]
        · simp [h2, ih]

/-- A successful lookup is a member of the association list. -/
theorem layersLookup_mem {l : List (Nat × SpriteAndWantsToMove)} {k : Nat}
    {v : SpriteAndWantsToMove} (h : layersLookup l k = some v) : (k, v) ∈ l := by
  induction l with
  | nil => simp [layersLookup] at h
  | cons hd tl ih =>
    obtain ⟨k0, v0⟩ := hd
    simp only [layersLookup] at h
    by_cases h2 : k = k0
    · subst h2
      rw [if_pos rfl] at h
      cases h
      exact List.mem_cons_self _ _
    · rw [if_neg h2] at h
      exact List.mem_cons_of_mem _ (ih h)

/-! ## Claim C8: invariant-violation panics -/

/-- Board::add_sprites_at never fails: the direction is Stationary. -/
theorem add_sprites_at_isSome (b : Board) (p : Position) (sprites : List SpriteState) :
    ∃ b2, b.add_sprites_at p sprites = some b2 := by
  induction sprites generalizing b with
  | nil => exact ⟨b, rfl⟩
  | cons s rest ih =>
    simp only [Board.add_sprites_at, List.foldlM_cons]
    have hone : ∃ b1, b.add_sprite p s .stationary = some b1 := by
      unfold Board.add_sprite Board.add_sprite_index
      unfold Cell.add_sprite_index
      simp only [reduceCtorEq, if_false]
      cases layersLookup (b.get p).collision_layers s.collision_layer with
      | none => exact ⟨_, rfl⟩
      | some w => by_cases h : w = ⟨s.index, .stationary⟩ <;> simp [h]
    obtain ⟨b1, hb1⟩ := hone
    rw [hb1]
    exact ih b1.1

/-- Tail of the from_tiles fold: succeeds iff no tile in the remaining rows
is Or-kind. -/
theorem from_tiles_fold_none_iff (rows : List (Nat × List Tile)) (bg : Tile)
    (b : Board) :
    (rows.foldlM
      (fun (board : Board) (yrow : Nat × List Tile) =>
        yrow.2.enum.foldlM
          (fun (board : Board) (xtile : Nat × Tile) => do
            let p : Position := ⟨xtile.1, yrow.1⟩
            let board ← board.add_sprites_at p bg.sprites
            match xtile.2.kind with
            | .or => none
            | .and => board.add_sprites_at p xtile.2.sprites)
          board)
      b = none) ↔
    ∃ row ∈ rows, ∃ tile ∈ row.2, tile.kind = TileKind.or := by
  induction rows generalizing b with
  | nil => simp
  | cons r rest ih =>
    simp only [List.foldlM_cons]
    have hrow : ∀ (b0 : Board) (cells : List (Nat × Tile)),
        (cells.foldlM
          (fun (board : Board) (xtile : Nat × Tile) => do
            let p : Position := ⟨xtile.1, r.1⟩
            let board ← board.add_sprites_at p bg.sprites
            match xtile.2.kind with
            | .or => none
            | .and => board.add_sprites_at p xtile.2.sprites)
          b0 = none) ↔ ∃ t ∈ cells, t.2.kind = TileKind.or := by
      intro b0 cells
      induction cells generalizing b0 with
      | nil => simp
      | cons c crest ihc =>
        simp only [List.foldlM_cons]
        obtain ⟨b1, hb1⟩ := add_sprites_at_isSome b0 ⟨c.1, r.1⟩ bg.sprites
        rw [hb1]
        simp only [Option.bind_eq_bind', Option.some_bind']
        by_cases hk : c.2.kind = TileKind.or
        · rw [hk]
          simp only [Option.none_bind']
          constructor
          · intro _
            exact ⟨c, List.mem_cons_self _ _, hk⟩
          · intro _
            trivial
        · have hand : c.2.kind = TileKind.and := by
            cases hc2 : c.2.kind
            · rfl
            · exact absurd hc2 hk
          rw [hand]
          obtain ⟨b2, hb2⟩ := add_sprites_at_isSome b1 ⟨c.1, r.1⟩ c.2.sprites
          rw [hb2]
          simp only [Option.some_bind']
          simp only [Option.bind_eq_bind'] at ihc
          rw [ihc b2]
          constructor
          · intro ⟨t, ht, htk⟩
            exact ⟨t, List.mem_cons_of_mem _ ht, htk⟩
          · intro ⟨t, ht, htk⟩
            rcases List.mem_cons.mp ht with rfl | ht2
            · exact absurd htk hk
            · exact ⟨t, ht2, htk⟩
    cases hfold : r.2.enum.foldlM
        (fun (board : Board) (xtile : Nat × Tile) => do
          let p : Position := ⟨xtile.1, r.1⟩
          let board ← board.add_sprites_at p bg.sprites
          match xtile.2.kind with
          | .or => none
          | .and => board.add_sprites_at p xtile.2.sprites)
        b with
    | none =>
      simp only [Option.bind_eq_bind', Option.none_bind']
      have hor : ∃ t ∈ r.2.enum, t.2.kind = TileKind.or := (hrow b r.2.enum).mp hfold
      constructor
      · intro _
        obtain ⟨t, ht, htk⟩ := hor
        refine ⟨r, List.mem_cons_self _ _, t.2, ?_, htk⟩
        have hg := List.mem_enum_iff_getElem?.mp ht
        obtain ⟨hlt, he⟩ := List.getElem?_eq_some.mp hg
        exact he ▸ List.getElem_mem hlt
      · intro _
        trivial
    | some b1 =>
      simp only [Option.bind_eq_bind', Option.some_bind']
      simp only [Option.bind_eq_bind'] at ih
      rw [ih b1]
      have hnor : ¬ ∃ t ∈ r.2.enum, t.2.kind = TileKind.or := by
        intro hcon
        have hcontra := (hrow b r.2.enum).mpr hcon
        rw [hfold] at hcontra
        cases hcontra
      constructor
      · intro ⟨row, hrowmem, t, ht, htk⟩
        exact ⟨row, List.mem_cons_of_mem _ hrowmem, t, ht, htk⟩
      · intro ⟨row, hrowmem, t, ht, htk⟩
        rcases List.mem_cons.mp hrowmem with rfl | h2
        · exfalso
          apply hnor
          obtain ⟨i, hlt, he⟩ := List.mem_iff_getElem.mp ht
          refine ⟨(i, t), ?_, htk⟩
          rw [List.mk_mem_enum_iff_getElem?, List.getElem?_eq_getElem hlt, he]
        · exact ⟨row, h2, t, ht, htk⟩

/-- C8: Cell::add_sprite_index panics exactly on RandomDir (for sprite ids
in the BitSet range the source can index); Cell::set_wants_to_move panics
exactly on an unoccupied layer and otherwise only replaces the direction
of the existing sprite, reporting whether it changed; Board::from_tiles on
a non-empty rectangular level grid panics exactly when some cell of the
level is defined by an Or-kind tile. -/
theorem invariant_violation_panics :
    (∀ (cell : Cell) (collision_layer sprite_index : Nat) (dir : WantsToMove),
      sprite_index < 512 →
      (cell.add_sprite_index collision_layer sprite_index dir = none ↔
        dir = WantsToMove.randomDir)) ∧
    (∀ (cell : Cell) (collision_layer : Nat) (dir : WantsToMove),
      (cell.set_wants_to_move collision_layer dir = none ↔
        layersLookup cell.collision_layers collision_layer = none) ∧
      (∀ x, layersLookup cell.collision_layers collision_layer = some x →
        ∃ cell2 changed,
          cell.set_wants_to_move collision_layer dir = some (cell2, changed) ∧
          changed = decide ¬(x.wants_to_move = dir) ∧
          ∀ k, layersLookup cell2.collision_layers k =
            if k = collision_layer then some ⟨x.sprite_index, dir⟩
            else layersLookup cell.collision_layers k)) ∧
    (∀ (grid : List (List Tile)) (background_tile : Tile),
      grid ≠ [] → (∀ row ∈ grid, row.length = (grid.headD []).length) →
      (Board.from_tiles grid background_tile = none ↔
        ∃ row ∈ grid, ∃ tile ∈ row, tile.kind = TileKind.or)) := by
  refine ⟨?_, ?_, ?_⟩
  · intro cell cl idx dir _
    unfold Cell.add_sprite_index
    by_cases hd : dir = WantsToMove.randomDir
    · simp [hd]
    · rw [if_neg hd]
      cases layersLookup cell.collision_layers cl with
      | none => simp [hd]
      | some w => by_cases hw : w = ⟨idx, dir⟩ <;> simp [hw, hd]
  · intro cell cl dir
    constructor
    · unfold Cell.set_wants_to_move
      cases h : layersLookup cell.collision_layers cl with
      | none => simp
      | some x => by_cases hx : x.wants_to_move = dir <;> simp [hx]
    · intro x hx
      have heq : cell.set_wants_to_move cl dir =
          if x.wants_to_move = dir then some (cell, false)
          else some (⟨layersInsert cell.collision_layers cl ⟨x.sprite_index, dir⟩,
                      cell.sprite_bits.insert x.sprite_index⟩, true) := by
        unfold Cell.set_wants_to_move
        rw [hx]
      rw [heq]
      by_cases hd : x.wants_to_move = dir
      · rw [if_pos hd]
        refine ⟨cell, false, rfl, by simp [hd], ?_⟩
        · intro k
          by_cases hk : k = cl
          · subst hk
            rw [if_pos rfl, hx]
            cases x
            simp_all
          · simp [hk]
      · rw [if_neg hd]
        refine ⟨_, true, rfl, by simp [hd], ?_⟩
        intro k
        rw [layersLookup_layersInsert]
  · intro grid bg hne hrect
    unfold Board.from_tiles
    rw [from_tiles_fold_none_iff]
    constructor
    · intro ⟨row, hrow, tile, ht, htk⟩
      refine ⟨row.2, ?_, tile, ht, htk⟩
      have hg := List.mem_enum_iff_getElem?.mp hrow
      obtain ⟨hlt, he⟩ := List.getElem?_eq_some.mp hg
      exact he ▸ List.getElem_mem hlt
    · intro ⟨row, hrow, tile, ht, htk⟩
      obtain ⟨i, hlt, he⟩ := List.mem_iff_getElem.mp hrow
      refine ⟨(i, row), ?_, tile, ht, htk⟩
      rw [List.mk_mem_enum_iff_getElem?, List.getElem?_eq_getElem hlt, he]

/-- C8 witness: the panic theorem instantiated at a RandomDir insertion
into the empty cell, at a set_wants_to_move on an occupied layer, and at a
level grid holding an Or-kind tile. -/
theorem invariant_violation_panics_witness :
    Cell.new.add_sprite_index 0 3 WantsToMove.randomDir = none ∧
    Board.from_tiles [[Tile.new .or "x" [cPlayer]]] cBackgroundTile = none := by
  refine ⟨?_, ?_⟩
  · exact (invariant_violation_panics.1 Cell.new 0 3 .randomDir (by decide)).mpr rfl
  · exact (invariant_violation_panics.2.2 [[Tile.new .or "x" [cPlayer]]] cBackgroundTile
      (by decide) (by decide)).mpr
      ⟨_, List.mem_cons_self _ _, _, List.mem_cons_self _ _, rfl⟩

/-! ## Claim C5: win conditions -/

/-- Number of cells matching a tile over the whole board (the spec's
count of cells matching T). -/
def countSimple (b : Board) (t : Tile) : Nat :=
  b.positions_iter.countP fun pos => b.matches pos t none

/-- Number of cells matching both tiles (the spec's count of cells
matching T and U). -/
def countOn (b : Board) (t u : Tile) : Nat :=
  b.positions_iter.countP fun pos => b.matches pos t none && b.matches pos u none

/-- The claim's satisfaction predicate for one win condition, stated over
whole-board counts (Simple/All is unreachable and arbitrary here; theorems
exclude it). -/
def winConditionSatisfied (w : WinCondition) (b : Board) : Bool :=
  match w with
  | .simple .no t => countSimple b t == 0
  | .simple .any t => 0 < countSimple b t
  | .simple .some t => 0 < countSimple b t
  | .simple .all _ => false
  | .on .no t u => countOn b t u == 0
  | .on .any t u => 0 < countOn b t u
  | .on .some t u => 0 < countOn b t u
  | .on .all t u => countSimple b t == countOn b t u

/-- Whether a win condition is the unreachable Simple/All shape whose
satisfies_acc panics. -/
def WinCondition.is_simple_all : WinCondition → Bool
  | .simple .all _ => true
  | _ => false

/-- The count accumulator of one win condition over a list of positions. -/
def accOf (w : WinCondition) (b : Board) (l : List Position) (acc : Nat × Nat) :
    Nat × Nat :=
  l.foldl (fun a pos => w.update_acc b pos a) acc

/-- accOf for a Simple condition counts the tile matches in the first
component and leaves the second untouched. -/
theorem accOf_simple (b : Board) (q : WinConditionOnQualifier) (t : Tile)
    (l : List Position) (a c : Nat) :
    accOf (.simple q t) b l (a, c) =
      (a + l.countP (fun pos => b.matches pos t none), c) := by
  induction l generalizing a with
  | nil => simp [accOf]
  | cons pos rest ih =>
    rw [accOf, List.foldl_cons, List.countP_cons]
    show accOf (.simple q t) b rest (WinCondition.update_acc _ b pos (a, c)) = _
    simp only [WinCondition.update_acc]
    by_cases hm : Board.matches b pos t none
    · rw [if_pos hm, ih]
      simp only [hm, if_true, Prod.mk.injEq, and_true]
      omega
    · rw [if_neg hm, ih]
      simp only [Bool.not_eq_true] at hm
      simp [hm]

/-- accOf for an On condition counts the tile matches and the joint
matches. -/
theorem accOf_on (b : Board) (q : WinConditionOnQualifier) (t u : Tile)
    (l : List Position) (a c : Nat) :
    accOf (.on q t u) b l (a, c) =
      (a + l.countP (fun pos => b.matches pos t none),
       c + l.countP (fun pos => b.matches pos t none && b.matches pos u none)) := by
  induction l generalizing a c with
  | nil => simp [accOf]
  | cons pos rest ih =>
    rw [accOf, List.foldl_cons, List.countP_cons, List.countP_cons]
    show accOf (.on q t u) b rest (WinCondition.update_acc _ b pos (a, c)) = _
    simp only [WinCondition.update_acc]
    by_cases hm : Board.matches b pos t none
    · by_cases hu : Board.matches b pos u none
      · rw [if_pos hm, if_pos hu, ih]
        simp only [hm, hu, Bool.and_self, if_true, Prod.mk.injEq]
        exact ⟨by omega, by omega⟩
      · rw [if_pos hm, if_neg hu, ih]
        simp only [Bool.not_eq_true] at hu
        simp only [hm, hu, Bool.and_false, if_true, Prod.mk.injEq]
        simp only [Bool.false_eq_true, if_false]
        exact ⟨by omega, by omega⟩
    · rw [if_neg hm, ih]
      simp only [Bool.not_eq_true] at hm
      simp [hm]

/-- Mapping a zip of a list with a map over itself. -/
theorem zip_map_self {α β γ : Type} (l : List α) (f : α → β) (g : α → β → γ) :
    (l.zip (l.map f)).map (fun ab => g ab.1 ab.2) = l.map fun a => g a (f a) := by
  induction l with
  | nil => simp
  | cons hd tl ih => simp [ih]

/-- The vector fold of check_win_conditions is the map of the individual
condition folds. -/
theorem winAcc_fold (b : Board) (conds : List WinCondition) (l : List Position)
    (f : WinCondition → Nat × Nat) :
    l.foldl
      (fun accs pos => (conds.zip accs).map fun wa => wa.1.update_acc b pos wa.2)
      (conds.map f) =
    conds.map fun w => accOf w b l (f w) := by
  induction l generalizing f with
  | nil => simp [accOf]
  | cons pos rest ih =>
    rw [List.foldl_cons]
    rw [zip_map_self conds f (fun w acc => w.update_acc b pos acc)]
    rw [ih (fun w => w.update_acc b pos (f w))]
    rfl

/-- satisfies_acc agrees with the claim's per-condition predicate on the
whole-board accumulator, for conditions other than Simple/All. -/
theorem satisfies_acc_spec (w : WinCondition) (b : Board)
    (h : w.is_simple_all = false) :
    w.satisfies_acc (accOf w b b.positions_iter (0, 0)) =
      some (winConditionSatisfied w b) := by
  cases w with
  | simple q t =>
    rw [accOf_simple]
    cases q with
    | all => simp [WinCondition.is_simple_all] at h
    | no => simp [WinCondition.satisfies_acc, winConditionSatisfied, countSimple]
    | any =>
      simp [WinCondition.satisfies_acc, winConditionSatisfied, countSimple]
    | some =>
      simp [WinCondition.satisfies_acc, winConditionSatisfied, countSimple]
  | «on» q t u =>
    rw [accOf_on]
    cases q <;>
      simp [WinCondition.satisfies_acc, winConditionSatisfied, countSimple, countOn]

/-- winAllSat over the zipped accumulators decides the conjunction of the
per-condition predicates. -/
theorem winAllSat_spec (b : Board) (conds : List WinCondition)
    (h : ∀ w ∈ conds, w.is_simple_all = false) :
    winAllSat (conds.zip (conds.map fun w => accOf w b b.positions_iter (0, 0))) =
      some (decide (∀ w ∈ conds, winConditionSatisfied w b = true)) := by
  induction conds with
  | nil => simp [winAllSat]
  | cons w rest ih =>
    rw [List.map_cons, List.zip_cons_cons, winAllSat]
    rw [satisfies_acc_spec w b (h w (List.mem_cons_self _ _))]
    simp only [Option.bind_eq_bind', Option.some_bind']
    by_cases hw : winConditionSatisfied w b = true
    · rw [hw]
      simp only [if_pos]
      rw [ih fun w2 hw2 => h w2 (List.mem_cons_of_mem _ hw2)]
      congr 1
      rw [decide_eq_decide]
      constructor
      · intro hall w2 hw2
        rcases List.mem_cons.mp hw2 with rfl | h2
        · exact hw
        · exact hall w2 h2
      · intro hall w2 hw2
        exact hall w2 (List.mem_cons_of_mem _ hw2)
    · simp only [Bool.not_eq_true] at hw
      rw [hw]
      simp only [Bool.false_eq_true, if_false]
      have hdec : decide (∀ w2 ∈ w :: rest, winConditionSatisfied w2 b = true) = false := by
        simp only [decide_eq_false_iff_not]
        intro hall
        have hc := hall w (List.mem_cons_self _ _)
        rw [hw] at hc
        cases hc
      rw [hdec]

/-- C5: check_win_conditions returns some true iff the game declares at
least one win condition and every declared condition is satisfied over the
whole-board counts of the claim: Simple(No) iff no cell matches, any/some
iff some cell matches, On(No)/On(Any|Some) over joint matches, and
On(All) iff the tile count equals the joint count; an empty win-condition
list gives some false.  Conditions of the unreachable Simple/All shape
(whose satisfies_acc panics) are excluded by hypothesis. -/
theorem check_win_conditions_spec (g : GameData) (b : Board)
    (h : ∀ w ∈ g.win_conditions, w.is_simple_all = false) :
    (g.check_win_conditions b = some true ↔
      (g.win_conditions ≠ [] ∧ ∀ w ∈ g.win_conditions, winConditionSatisfied w b = true)) ∧
    (g.win_conditions = [] → g.check_win_conditions b = some false) := by
  constructor
  · by_cases hempty : g.win_conditions.length = 0
    · simp only [GameData.check_win_conditions, if_pos hempty]
      simp only [List.length_eq_zero] at hempty
      simp [hempty]
    · simp only [GameData.check_win_conditions, if_neg hempty]
      rw [winAcc_fold b g.win_conditions b.positions_iter (fun _ => (0, 0))]
      rw [winAllSat_spec b g.win_conditions h]
      simp only [Option.some.injEq, decide_eq_true_eq]
      constructor
      · intro hall
        exact ⟨by simpa [← List.length_eq_zero] using hempty, hall⟩
      · intro ⟨_, hall⟩
        exact hall
  · intro hempty
    unfold GameData.check_win_conditions
    simp [hempty]

/-- Fixture: a game declaring one win condition, No player. -/
def cGameWin : GameData :=
  GameData.new cPlayerTile cBackgroundTile [] []
    [WinCondition.simple .no cPlayerTile]

/-- C5 witness: the win-condition theorem applied to a concrete game and
an empty board, on which No player holds. -/
theorem check_win_conditions_spec_witness :
    cGameWin.check_win_conditions (Board.new 2 1) = some true := by
  exact (check_win_conditions_spec cGameWin (Board.new 2 1) (by decide)).1.mpr
    ⟨by decide, by decide⟩

/-! ## Claim C3: wants_to_move after motion resolution -/

/-- getD after set: the written index reads back the new value when in
range; everything else is unchanged. -/
theorem list_getD_set {α : Type} (l : List α) (i j : Nat) (a d : α) :
    (l.set i a).getD j d = if i = j ∧ i < l.length then a else l.getD j d := by
  induction l generalizing i j with
  | nil => simp
  | cons hd tl ih =>
    cases i with
    | zero => cases j <;> simp
    | succ i2 =>
      cases j with
      | zero => simp
      | succ j2 =>
        show (tl.set i2 a).getD j2 d = _
        rw [ih]
        by_cases h : i2 = j2 ∧ i2 < tl.length
        · rw [if_pos h, if_pos ⟨by omega, by simp; omega⟩]
        · rw [if_neg h, if_neg (by simp; omega)]
          rfl

/-- Slot-level characterization of Board::set_wants_to_move: the addressed
slot holds the old sprite with the new direction; every other slot and the
board dimensions are untouched. -/
theorem set_wants_to_move_slot {b : Board} {p : Position} {c : Nat}
    {d : WantsToMove} {b2 : Board} {ch : Bool}
    (h : b.set_wants_to_move p c d = some (b2, ch)) :
    b2.width = b.width ∧ b2.height = b.height ∧ b2.grid.length = b.grid.length ∧
    ∃ x, b.slot (b.pos p) c = some x ∧
      ∀ i c2, b2.slot i c2 =
        if i = b.pos p ∧ c2 = c then some ⟨x.sprite_index, d⟩ else b.slot i c2 := by
  unfold Board.set_wants_to_move at h
  cases hc : (b.get p).set_wants_to_move c d with
  | none => rw [hc] at h; cases h
  | some cb =>
    obtain ⟨cell2, chb⟩ := cb
    rw [hc] at h
    simp only [Option.some.injEq, Prod.mk.injEq] at h
    obtain ⟨hb2, hch⟩ := h
    subst hb2
    unfold Cell.set_wants_to_move at hc
    cases hl : layersLookup (b.get p).collision_layers c with
    | none => rw [hl] at hc; cases hc
    | some x =>
      simp only [hl] at hc
      have hlen : b.pos p < b.grid.length := by
        by_contra hge
        have hdef : b.get p = Cell.new := List.getD_eq_default _ _ (by omega)
        rw [hdef] at hl
        cases hl
      have hlayers : ∀ k, layersLookup cell2.collision_layers k =
          if k = c then some ⟨x.sprite_index, d⟩
          else layersLookup (b.get p).collision_layers k := by
        by_cases hxd : x.wants_to_move = d
        · rw [if_pos hxd] at hc
          simp only [Option.some.injEq, Prod.mk.injEq] at hc
          obtain ⟨hcl, _⟩ := hc
          intro k
          rw [← hcl]
          by_cases hk : k = c
          · subst hk
            rw [if_pos rfl, hl]
            congr 1
            cases x
            simp_all
          · rw [if_neg hk]
        · rw [if_neg hxd] at hc
          simp only [Option.some.injEq, Prod.mk.injEq] at hc
          obtain ⟨hcl, _⟩ := hc
          intro k
          rw [← hcl]
          show layersLookup (layersInsert (b.get p).collision_layers c
            ⟨x.sprite_index, d⟩) k = _
          rw [layersLookup_layersInsert]
      refine ⟨rfl, rfl, by simp, x, hl, ?_⟩
      intro i c2
      show layersLookup ((b.grid.set (b.pos p) cell2).getD i Cell.new).collision_layers c2 = _
      rw [list_getD_set]
      by_cases hi : b.pos p = i ∧ b.pos p < b.grid.length
      · rw [if_pos hi, hlayers c2]
        by_cases hc2 : c2 = c
        · rw [if_pos hc2, if_pos ⟨hi.1.symm, hc2⟩]
        · rw [if_neg hc2, if_neg (fun hcon => hc2 hcon.2)]
          unfold Board.slot
          rw [← hi.1]
          rfl
      · have hine : ¬(b.pos p = i) := fun hcon => hi ⟨hcon, hlen⟩
        rw [if_neg hi, if_neg (fun hcon => hine hcon.1.symm)]
        rfl

/-- Forcing every listed slot Stationary leaves a board whose slots are
all Stationary, provided the list covered every non-Stationary slot. -/
theorem applyStationaries_all_stationary (w : Nat) :
    ∀ (l : List (Position × Nat)) (b : Board) (did : Bool) (b2 : Board) (ch : Bool),
    b.width = w →
    applyStationaries b l did = some (b2, ch) →
    (∀ i c sw, b.slot i c = some sw → sw.wants_to_move = WantsToMove.stationary ∨
      ∃ pc ∈ l, pc.1.y * w + pc.1.x = i ∧ pc.2 = c) →
    Board.all_stationary b2 := by
  intro l
  induction l with
  | nil =>
    intro b did b2 ch hw h hcov
    simp only [applyStationaries, List.foldlM_nil, Option.pure_def,
      Option.some.injEq, Prod.mk.injEq] at h
    obtain ⟨rfl, _⟩ := h
    intro i c sw hs
    rcases hcov i c sw hs with hstat | ⟨pc, hpc, _⟩
    · exact hstat
    · cases hpc
  | cons pc rest ih =>
    intro b did b2 ch hw h hcov
    rw [applyStationaries, List.foldlM_cons] at h
    cases hset : b.set_wants_to_move pc.1 pc.2 .stationary with
    | none =>
      rw [hset] at h
      cases h
    | some bc =>
      rw [hset] at h
      simp only [Option.bind_eq_bind', Option.some_bind'] at h
      obtain ⟨hwidth, _, _, x, hx, hchar⟩ := set_wants_to_move_slot hset
      refine ih bc.1 (did || bc.2) b2 ch (by rw [hwidth, hw]) h ?_
      intro i c sw hs
      rw [hchar i c] at hs
      by_cases hic : i = b.pos pc.1 ∧ c = pc.2
      · rw [if_pos hic] at hs
        cases hs
        left
        rfl
      · rw [if_neg hic] at hs
        rcases hcov i c sw hs with hstat | ⟨pc2, hpc2, hmatch⟩
        · left
          exact hstat
        · rcases List.mem_cons.mp hpc2 with rfl | hrest
          · exfalso
            apply hic
            refine ⟨?_, hmatch.2.symm⟩
            rw [← hmatch.1]
            unfold Board.pos
            rw [hw]
          · right
            exact ⟨pc2, hrest, hmatch⟩

/-- Every non-Stationary slot appears in the final-cleanup collection. -/
theorem collectNonStationary_covers (b : Board) (i c : Nat)
    (sw : SpriteAndWantsToMove) (hs : b.slot i c = some sw)
    (hns : sw.wants_to_move ≠ WantsToMove.stationary) :
    ∃ pc ∈ collectNonStationary b, pc.1.y * b.width + pc.1.x = i ∧ pc.2 = c := by
  have hlen : i < b.grid.length := by
    by_contra hge
    unfold Board.slot at hs
    rw [List.getD_eq_default _ _ (by omega)] at hs
    cases hs
  have hroundtrip : b.pos (b.index_to_pos i) = i := by
    unfold Board.pos Board.index_to_pos
    simp only
    rw [Nat.mul_comm]
    exact Nat.div_add_mod i b.width
  refine ⟨(b.index_to_pos i, c), ?_, ?_, rfl⟩
  · unfold collectNonStationary
    rw [List.mem_flatMap]
    refine ⟨b.index_to_pos i, ?_, ?_⟩
    · unfold Board.positions_iter
      exact List.mem_map_of_mem _ (List.mem_range.mpr hlen)
    · rw [List.mem_filterMap]
      refine ⟨(c, sw), ?_, ?_⟩
      · unfold Board.as_map
        apply layersLookup_mem
        show layersLookup (b.get (b.index_to_pos i)).collision_layers c = some sw
        unfold Board.get
        rw [hroundtrip]
        exact hs
      · simp [hns]
  · show (b.index_to_pos i).y * b.width + (b.index_to_pos i).x = i
    unfold Board.index_to_pos
    simp only
    rw [Nat.mul_comm]
    exact Nat.div_add_mod i b.width

/-- The final cleanup of evaluate_post leaves every slot Stationary. -/
theorem finalCleanup_all_stationary {b b2 : Board} (h : finalCleanup b = some b2) :
    Board.all_stationary b2 := by
  unfold finalCleanup at h
  cases happ : applyStationaries b (collectNonStationary b) false with
  | none => rw [happ] at h; cases h
  | some bc =>
    rw [happ] at h
    simp only [Option.bind_eq_bind', Option.some_bind', Option.some.injEq] at h
    subst h
    exact applyStationaries_all_stationary b.width (collectNonStationary b) b false
      bc.1 bc.2 rfl (by rw [← happ]) (fun i c sw hs => by
        by_cases hstat : sw.wants_to_move = WantsToMove.stationary
        · exact Or.inl hstat
        · exact Or.inr (collectNonStationary_covers b i c sw hs hstat))

/-- Every board the evaluate_post loop produces went through the final
cleanup, so all its slots are Stationary. -/
theorem evaluatePostLoop_all_stationary :
    ∀ (fuel : Nat) (b b2 : Board),
    evaluatePostLoop b fuel = some b2 → Board.all_stationary b2 := by
  intro fuel
  induction fuel with
  | zero =>
    intro b b2 h
    cases h
  | succ f ih =>
    intro b b2 h
    unfold evaluatePostLoop at h
    cases h1 : applyStationaries b (collectStationary b) false with
    | none =>
      simp only [h1, Option.bind_eq_bind', Option.none_bind'] at h
      cases h
    | some bc1 =>
      obtain ⟨b1, did1⟩ := bc1
      simp only [h1, Option.bind_eq_bind', Option.some_bind'] at h
      cases h2 : applyMoves b1 (collectMoves b) did1 with
      | none =>
        simp only [h2, Option.bind_eq_bind', Option.none_bind'] at h
        cases h
      | some bc2 =>
        obtain ⟨b3, did3⟩ := bc2
        simp only [h2, Option.bind_eq_bind', Option.some_bind'] at h
        by_cases hdid : did3 = true
        · rw [if_pos hdid] at h
          exact ih b3 b2 h
        · rw [if_neg hdid] at h
          exact finalCleanup_all_stationary h

/-- C3 (amended): after motion resolution — GameData::evaluate_post, which
runs before the late-rule pass — every occupied (cell, collision layer)
slot of the board has wants_to_move Stationary; late rules run afterwards
and can persist non-Stationary intents (including Action) to the end of
the tick, as the counterexample shows. -/
theorem evaluate_post_all_stationary (fuel : Nat) (g : GameData) (b b2 : Board)
    (h : g.evaluate_post fuel b = some b2) : Board.all_stationary b2 :=
  evaluatePostLoop_all_stationary fuel b b2 h

/-- Fixture: a prepared late rule, LATE STATIONARY player -> RIGHT player. -/
def cLateRule : Rule :=
  { conditions := [Bracket.new .right
      [{ tiles_with_modifier := [{ random := false, negated := false,
                                   tile := cPlayerTile, direction := some .stationary }]
         actions := [(0, NeighborAction.modifyDir .right)] }]]
    actions := [Bracket.new .right [Neighbor.new
      [{ random := false, negated := false, tile := cPlayerTile,
         direction := some .right }]]]
    commands := TriggeredCommands.new
    random := false, late := true, rigid := false
    causes_board_changes := some true }

/-- Fixture: a game whose only rule is the late rule. -/
def cGameLate : GameData :=
  GameData.new cPlayerTile cBackgroundTile [⟨false, [⟨false, [cLateRule]⟩]⟩] [] []

/-- C3 counterexample: a non-cancelled tick (it reports changed = true, and
a cancelled tick always reports changed = false) on the late-rule game
leaves the player's slot with persisted wants_to_move = Right — motion
resolution runs before the late pass, so the late rule's direction intent
survives the tick, refuting the claim as stated. -/
theorem tick_late_rule_persists_direction :
    ((Engine.tick 20 (Engine.from_checkpoint ⟨[]⟩ cGameLate 0 cBoard1) none).map
      fun et =>
        (et.2.changed,
         match et.1.current_level with
         | .board b => b.get_wants_to_move ⟨0, 0⟩ 0
         | .message _ => none)) =
      some (true, some WantsToMove.right) := by
  rfl

/-- Fixture: cBoard2 with the player wanting to move Right. -/
def cBoardRight : Board :=
  ((cBoard2.set_wants_to_move ⟨0, 0⟩ 0 .right).map Prod.fst).getD cBoard2

/-- C3 witness: the amended theorem applied to a board with a pending
Right intent; after motion resolution every slot is Stationary. -/
theorem evaluate_post_all_stationary_witness :
    Board.all_stationary
      ((GameData.evaluate_post 5 cGameNoRules cBoardRight).getD (Board.new 0 0)) :=
  evaluate_post_all_stationary 5 cGameNoRules cBoardRight _ (by rfl)

/-! ## Claim C4: stripe caches are a conservative superset

The mutator sequences of the claim, as an operation type over boards. -/

/-- One public Board mutator call (src/model/board.rs). -/
inductive BoardOp where
  | addSprite (p : Position) (sprite : SpriteState) (dir : WantsToMove)
  | addSpriteIndex (p : Position) (collision_layer sprite_index : Nat) (dir : WantsToMove)
  | removeCollisionLayer (p : Position) (collision_layer : Nat)
  | setWantsToMove (p : Position) (collision_layer : Nat) (dir : WantsToMove)

/-- Run one mutator (discarding the changed flag). -/
def BoardOp.apply (b : Board) : BoardOp → Option Board
  | .addSprite p s dir => (b.add_sprite p s dir).map Prod.fst
  | .addSpriteIndex p c i dir => (b.add_sprite_index p c i dir).map Prod.fst
  | .removeCollisionLayer p c => some (b.remove_collision_layer p c).1
  | .setWantsToMove p c dir => (b.set_wants_to_move p c dir).map Prod.fst

/-- Run a sequence of mutators. -/
def applyOps (b : Board) : List BoardOp → Option Board
  | [] => some b
  | op :: rest =>
    match BoardOp.apply b op with
    | none => none
    | some b2 => applyOps b2 rest

/-- Domain of a mutator call: the position names a real cell of a
width-by-height board (the source panics or writes through the row-major
aliasing otherwise) and sprite ids fit the 512-bit BitSet. -/
def BoardOp.wf (w h : Nat) : BoardOp → Prop
  | .addSprite p s _ => p.x < w ∧ p.y < h ∧ s.index < 512
  | .addSpriteIndex p _ i _ => p.x < w ∧ p.y < h ∧ i < 512
  | .removeCollisionLayer _ _ => True
  | .setWantsToMove p _ _ => p.x < w ∧ p.y < h

/-- Structural well-formedness the Board constructors establish: grid and
cache lengths match the dimensions and every cache BitSet has its 4
buckets. -/
def Board.cache_wf (b : Board) : Prop :=
  b.grid.length = b.width * b.height ∧
  b.row_cache.length = b.height ∧ b.col_cache.length = b.width ∧
  (∀ sc ∈ b.row_cache, sc.sprites.bits.length = 4) ∧
  (∀ sc ∈ b.col_cache, sc.sprites.bits.length = 4)

/-- The layer association list of a cell is strictly sorted by layer
(canonical form of the source's hash map). -/
def Cell.sorted_layers (cell : Cell) : Prop :=
  List.Pairwise (fun a b => a.1 < b.1) cell.collision_layers

/-- All cells of the board are in canonical form. -/
def Board.cells_sorted (b : Board) : Prop :=
  ∀ cell ∈ b.grid, cell.sorted_layers

/-- Membership after List.set. -/
theorem mem_of_mem_set {α : Type} {l : List α} {n : Nat} {a x : α}
    (h : x ∈ l.set n a) : x = a ∨ x ∈ l := by
  induction l generalizing n with
  | nil => simp at h
  | cons hd tl ih =>
    cases n with
    | zero =>
      rcases List.mem_cons.mp h with rfl | h2
      · exact Or.inl rfl
      · exact Or.inr (List.mem_cons_of_mem _ h2)
    | succ n2 =>
      rcases List.mem_cons.mp h with rfl | h2
      · exact Or.inr (List.mem_cons_self _ _)
      · rcases ih h2 with h3 | h3
        · exact Or.inl h3
        · exact Or.inr (List.mem_cons_of_mem _ h3)

/-- Membership after layersInsert. -/
theorem mem_layersInsert {l : List (Nat × SpriteAndWantsToMove)} {k : Nat}
    {v : SpriteAndWantsToMove} {q : Nat × SpriteAndWantsToMove}
    (h : q ∈ layersInsert l k v) : q = (k, v) ∨ q ∈ l := by
  induction l with
  | nil => simpa [layersInsert] using h
  | cons hd tl ih =>
    obtain ⟨k0, v0⟩ := hd
    simp only [layersInsert] at h
    by_cases h1 : k < k0
    · rw [if_pos h1] at h
      rcases List.mem_cons.mp h with rfl | h2
      · exact Or.inl rfl
      · exact Or.inr h2
    · by_cases h2 : k = k0
      · rw [if_neg h1, if_pos h2] at h
        rcases List.mem_cons.mp h with rfl | h3
        · exact Or.inl rfl
        · exact Or.inr (List.mem_cons_of_mem _ h3)
      · rw [if_neg h1, if_neg h2] at h
        rcases List.mem_cons.mp h with rfl | h3
        · exact Or.inr (List.mem_cons_self _ _)
        · rcases ih h3 with h4 | h4
          · exact Or.inl h4
          · exact Or.inr (List.mem_cons_of_mem _ h4)

/-- layersInsert keeps the strict sortedness of the layer list. -/
theorem layersInsert_pairwise {l : List (Nat × SpriteAndWantsToMove)} {k : Nat}
    {v : SpriteAndWantsToMove}
    (h : List.Pairwise (fun a b => a.1 < b.1) l) :
    List.Pairwise (fun a b => a.1 < b.1) (layersInsert l k v) := by
  induction l with
  | nil => simp [layersInsert]
  | cons hd tl ih =>
    obtain ⟨k0, v0⟩ := hd
    rw [List.pairwise_cons] at h
    obtain ⟨hall, htl⟩ := h
    simp only [layersInsert]
    by_cases h1 : k < k0
    · rw [if_pos h1]
      rw [List.pairwise_cons]
      constructor
      · intro q hq
        rcases List.mem_cons.mp hq with rfl | h2
        · exact h1
        · exact lt_trans h1 (hall q h2)
      · rw [List.pairwise_cons]
        exact ⟨hall, htl⟩
    · by_cases h2 : k = k0
      · rw [if_neg h1, if_pos h2]
        rw [List.pairwise_cons]
        subst h2
        exact ⟨hall, htl⟩
      · rw [if_neg h1, if_neg h2]
        rw [List.pairwise_cons]
        constructor
        · intro q hq
          rcases mem_layersInsert hq with rfl | h3
          · show k0 < k
            omega
          · exact hall q h3
        · exact ih htl

/-- layersRemove is a sublist. -/
theorem layersRemove_sublist (l : List (Nat × SpriteAndWantsToMove)) (k : Nat) :
    (layersRemove l k).Sublist l := by
  induction l with
  | nil => simp [layersRemove]
  | cons hd tl ih =>
    obtain ⟨k0, v0⟩ := hd
    simp only [layersRemove]
    by_cases h1 : k = k0
    · rw [if_pos h1]
      exact List.sublist_cons_self _ _
    · rw [if_neg h1]
      exact List.Sublist.cons₂ _ ih

/-- Lookup misses a key smaller than everything in the list. -/
theorem layersLookup_none_of_lt {l : List (Nat × SpriteAndWantsToMove)} {k : Nat}
    (h : ∀ q ∈ l, k < q.1) : layersLookup l k = none := by
  induction l with
  | nil => rfl
  | cons hd tl ih =>
    obtain ⟨k0, v0⟩ := hd
    simp only [layersLookup]
    have hk0 : k < k0 := h (k0, v0) (List.mem_cons_self _ _)
    rw [if_neg (by omega)]
    exact ih fun q hq => h q (List.mem_cons_of_mem _ hq)

/-- On a sorted layer list, a successful lookup after layersRemove was
already successful before. -/
theorem layersLookup_layersRemove_some {l : List (Nat × SpriteAndWantsToMove)}
    {k k2 : Nat} {v : SpriteAndWantsToMove}
    (hs : List.Pairwise (fun a b => a.1 < b.1) l)
    (h : layersLookup (layersRemove l k) k2 = some v) :
    layersLookup l k2 = some v := by
  induction l with
  | nil => simpa [layersRemove] using h
  | cons hd tl ih =>
    obtain ⟨k0, v0⟩ := hd
    rw [List.pairwise_cons] at hs
    obtain ⟨hall, htl⟩ := hs
    simp only [layersRemove] at h
    by_cases h1 : k = k0
    · rw [if_pos h1] at h
      simp only [layersLookup]
      by_cases h2 : k2 = k0
      · subst h2
        rw [layersLookup_none_of_lt hall] at h
        cases h
      · rw [if_neg h2]
        exact h
    · rw [if_neg h1] at h
      simp only [layersLookup] at h ⊢
      by_cases h2 : k2 = k0
      · rw [if_pos h2] at h ⊢
        exact h
      · rw [if_neg h2] at h ⊢
        exact ih htl h

/-! BitSet helper lemmas for the cache invariant. -/

/-- Positivity of a mask test as a testBit statement. -/
theorem and_shift_pos_iff (a r : Nat) : (a &&& 1 <<< r > 0) ↔ a.testBit r = true := by
  rw [Nat.shiftLeft_eq, one_mul, Nat.and_two_pow]
  cases h : a.testBit r <;> simp [h]

/-- Inserting never removes a contained index. -/
theorem bitset_contains_insert_mono {s : BitSet} {i j : Nat}
    (h : s.contains i = true) : (s.insert j).contains i = true := by
  simp only [BitSet.contains, BitSet.insert, decide_eq_true_eq] at h ⊢
  rw [and_shift_pos_iff] at h ⊢
  rw [list_getD_set]
  by_cases hb : j / BUCKET_SIZE = i / BUCKET_SIZE ∧ j / BUCKET_SIZE < s.bits.length
  · rw [if_pos hb, hb.1, Nat.testBit_or, h]
    rfl
  · rw [if_neg hb]
    exact h

/-- A just-inserted index below 512 is contained, when the bucket list has
its 4 buckets. -/
theorem bitset_contains_insert_self {s : BitSet} {i : Nat}
    (hlen : s.bits.length = 4) (hi : i < 512) :
    (s.insert i).contains i = true := by
  unfold BitSet.contains BitSet.insert
  simp only [decide_eq_true_eq]
  rw [and_shift_pos_iff, list_getD_set]
  have hb : i / BUCKET_SIZE < s.bits.length := by
    rw [hlen]
    show i / BUCKET_SIZE < 4
    unfold BUCKET_SIZE
    omega
  rw [if_pos ⟨rfl, hb⟩, Nat.testBit_or]
  have hbit : (1 <<< (i % BUCKET_SIZE)).testBit (i % BUCKET_SIZE) = true := by
    rw [Nat.shiftLeft_eq, one_mul]
    exact Nat.testBit_two_pow_self
  rw [hbit]
  simp

/-- Insertion keeps the bucket-list length. -/
theorem bitset_insert_length (s : BitSet) (j : Nat) :
    (s.insert j).bits.length = s.bits.length := by
  unfold BitSet.insert
  simp

/-- dirsInsert contains the inserted pair. -/
theorem dirsInsert_mem_self (l : List (Nat × WantsToMove)) (p : Nat × WantsToMove) :
    p ∈ dirsInsert l p := by
  unfold dirsInsert
  by_cases h : p ∈ l
  · rw [if_pos h]
    exact h
  · rw [if_neg h]
    exact List.mem_cons_self _ _

/-- dirsInsert keeps every existing pair. -/
theorem dirsInsert_mem_mono {l : List (Nat × WantsToMove)} {q : Nat × WantsToMove}
    (p : Nat × WantsToMove) (h : q ∈ l) : q ∈ dirsInsert l p := by
  unfold dirsInsert
  by_cases hp : p ∈ l
  · rw [if_pos hp]
    exact h
  · rw [if_neg hp]
    exact List.mem_cons_of_mem _ h

/-- In-range getD is a member. -/
theorem list_getD_mem {α : Type} {l : List α} {n : Nat} (h : n < l.length) (d : α) :
    l.getD n d ∈ l := by
  rw [List.getD_eq_getElem l d h]
  exact List.getElem_mem h

/-- getD on a replicate. -/
theorem list_getD_replicate {α : Type} (n i : Nat) (a d : α) :
    (List.replicate n a).getD i d = if i < n then a else d := by
  by_cases h : i < n
  · rw [if_pos h, List.getD_eq_getElem _ _ (by simpa using h), List.getElem_replicate]
  · rw [if_neg h, List.getD_eq_default _ _ (by simpa using h)]

/-- getD on an append, inside the left part. -/
theorem list_getD_append_left {α : Type} {l1 : List α} (l2 : List α) {i : Nat}
    (h : i < l1.length) (d : α) : (l1 ++ l2).getD i d = l1.getD i d := by
  rw [List.getD_eq_getElem _ _ (by simp; omega), List.getElem_append_left h,
    List.getD_eq_getElem _ _ h]

/-- getD on an append, at the first position of the right part. -/
theorem list_getD_append_right {α : Type} (l1 l2 : List α) (d : α) :
    (l1 ++ l2).getD l1.length d = l2.getD 0 d := by
  rcases l2 with _ | ⟨a, t⟩
  · simp
  · rw [List.getD_eq_getElem _ _ (by simp)]
    rw [List.getElem_append_right (by omega)]
    simp

/-- Membership in an enum gives the index bound and element membership. -/
theorem mem_enum_bounds {α : Type} {l : List α} {q : Nat × α} (h : q ∈ l.enum) :
    q.1 < l.length ∧ q.2 ∈ l := by
  obtain ⟨i, a⟩ := q
  have h2 := List.mk_mem_enum_iff_getElem?.mp h
  exact ⟨(List.getElem?_eq_some.mp h2).1, List.getElem?_mem h2⟩

/-- Row-major index division: the row. -/
theorem rowmajor_div {y w x : Nat} (hx : x < w) : (y * w + x) / w = y := by
  rw [Nat.mul_comm, Nat.mul_add_div (by omega), Nat.div_eq_of_lt hx]
  omega

/-- Row-major index remainder: the column. -/
theorem rowmajor_mod {y w x : Nat} (hx : x < w) : (y * w + x) % w = x := by
  rw [Nat.mul_comm, Nat.mul_add_mod]
  exact Nat.mod_eq_of_lt hx

/-- A row-major index of an in-bounds position is below the grid size. -/
theorem rowmajor_lt {y w x h : Nat} (hx : x < w) (hy : y < h) : y * w + x < w * h := by
  have h1 : y * w + x < (y + 1) * w := by
    rw [Nat.add_mul, Nat.one_mul]
    omega
  have h2 : (y + 1) * w ≤ h * w := Nat.mul_le_mul_right w (by omega)
  rw [Nat.mul_comm w h]
  omega

/-- Every getD on a list of 4-bucket caches yields a 4-bucket cache. -/
theorem cache_getD_len4 {l : List StripeCache}
    (hl : ∀ sc ∈ l, sc.sprites.bits.length = 4) (n : Nat) :
    ((l.getD n StripeCache.new).sprites.bits.length = 4) := by
  by_cases h : n < l.length
  · exact hl _ (list_getD_mem h _)
  · rw [List.getD_eq_default _ _ (by omega)]
    rfl

/-- Pointwise growth of a stripe cache: everything contained or listed
stays so. -/
def StripeCache.le (c1 c2 : StripeCache) : Prop :=
  (∀ i, c1.sprites.contains i = true → c2.sprites.contains i = true) ∧
  (∀ q, q ∈ c1.dirs → q ∈ c2.dirs)

/-- Growth is reflexive. -/
theorem StripeCache.le_refl (c : StripeCache) : c.le c :=
  ⟨fun _ h => h, fun _ h => h⟩

/-- StripeCache::add_sprite_index only grows the cache. -/
theorem stripe_add_le (c : StripeCache) (cl idx : Nat) (d : WantsToMove) :
    c.le (c.add_sprite_index cl idx d) :=
  ⟨fun _ h => bitset_contains_insert_mono h, fun _ h => dirsInsert_mem_mono _ h⟩

/-- StripeCache::set_wants_to_move only grows the cache. -/
theorem stripe_set_le (c : StripeCache) (cl : Nat) (d : WantsToMove) :
    c.le (c.set_wants_to_move cl d) :=
  ⟨fun _ h => h, fun _ h => dirsInsert_mem_mono _ h⟩

/-- Setting one stripe to a grown cache grows every getD view of the
stripe list. -/
theorem cache_at_set_le {l : List StripeCache} {n : Nat} {newc : StripeCache}
    (hle : (l.getD n StripeCache.new).le newc) (m : Nat) :
    ((l.getD m StripeCache.new).le ((l.set n newc).getD m StripeCache.new)) := by
  rw [list_getD_set]
  by_cases h : n = m ∧ n < l.length
  · rw [if_pos h, ← h.1]
    exact hle
  · rw [if_neg h]
    exact StripeCache.le_refl _

/-- Characterization of Cell::add_sprite_index on success: the addressed
layer now holds the new sprite and direction, every other layer is
untouched, and the layer list is the old one or a layersInsert of it. -/
theorem cell_add_sprite_index_lookup {cell : Cell} {c idx : Nat} {d : WantsToMove}
    {cell2 : Cell} {ch : Bool}
    (h : cell.add_sprite_index c idx d = some (cell2, ch)) :
    (∀ k, layersLookup cell2.collision_layers k =
      if k = c then some ⟨idx, d⟩ else layersLookup cell.collision_layers k) ∧
    (cell2.collision_layers = cell.collision_layers ∨
      cell2.collision_layers = layersInsert cell.collision_layers c ⟨idx, d⟩) := by
  unfold Cell.add_sprite_index at h
  by_cases hrd : d = WantsToMove.randomDir
  · rw [if_pos hrd] at h
    cases h
  · rw [if_neg hrd] at h
    simp only at h
    cases hl : layersLookup cell.collision_layers c with
    | none =>
      rw [hl] at h
      simp only [Option.some.injEq, Prod.mk.injEq] at h
      obtain ⟨hc2, _⟩ := h
      subst hc2
      refine ⟨fun k => ?_, Or.inr rfl⟩
      rw [show (⟨layersInsert cell.collision_layers c ⟨idx, d⟩,
        cell.sprite_bits.insert idx⟩ : Cell).collision_layers =
        layersInsert cell.collision_layers c ⟨idx, d⟩ from rfl]
      rw [layersLookup_layersInsert]
    | some w_curr =>
      simp only [hl] at h
      by_cases hw : w_curr = ⟨idx, d⟩
      · rw [if_pos hw] at h
        simp only [Option.some.injEq, Prod.mk.injEq] at h
        obtain ⟨hc2, _⟩ := h
        subst hc2
        refine ⟨fun k => ?_, Or.inl rfl⟩
        by_cases hk : k = c
        · subst hk
          rw [if_pos rfl, hl, hw]
        · rw [if_neg hk]
      · rw [if_neg hw] at h
        simp only [Option.some.injEq, Prod.mk.injEq] at h
        obtain ⟨hc2, _⟩ := h
        subst hc2
        refine ⟨fun k => ?_, Or.inr rfl⟩
        rw [show (⟨layersInsert cell.collision_layers c ⟨idx, d⟩,
          (cell.sprite_bits.remove w_curr.sprite_index).insert idx⟩ : Cell).collision_layers =
          layersInsert cell.collision_layers c ⟨idx, d⟩ from rfl]
        rw [layersLookup_layersInsert]

/-- The bundled invariant carried across the Board mutators: structural
well-formedness, canonical cells, and the conservative cache superset. -/
def BoardInv (b : Board) : Prop :=
  b.cache_wf ∧ b.cells_sorted ∧ b.cache_superset

/-- The cell read at any position of a canonical board is canonical. -/
theorem get_sorted {b : Board} (hs : b.cells_sorted) (p : Position) :
    (b.get p).sorted_layers := by
  unfold Board.get
  by_cases h : b.pos p < b.grid.length
  · exact hs _ (list_getD_mem h _)
  · rw [List.getD_eq_default _ _ (by omega)]
    exact List.Pairwise.nil

/-- Characterization of Cell::set_wants_to_move on success: the layer was
occupied, it now holds the old sprite with the new direction, and the layer
list is the old one or a layersInsert of it. -/
theorem cell_set_wants_to_move_lookup {cell : Cell} {c : Nat} {d : WantsToMove}
    {cell2 : Cell} {ch : Bool}
    (h : cell.set_wants_to_move c d = some (cell2, ch)) :
    (∃ x, layersLookup cell.collision_layers c = some x ∧
      (∀ k, layersLookup cell2.collision_layers k =
        if k = c then some ⟨x.sprite_index, d⟩ else layersLookup cell.collision_layers k) ∧
      (cell2.collision_layers = cell.collision_layers ∨
        cell2.collision_layers = layersInsert cell.collision_layers c ⟨x.sprite_index, d⟩)) := by
  unfold Cell.set_wants_to_move at h
  cases hl : layersLookup cell.collision_layers c with
  | none =>
    rw [hl] at h
    cases h
  | some x =>
    simp only [hl] at h
    by_cases hxd : x.wants_to_move = d
    · rw [if_pos hxd] at h
      simp only [Option.some.injEq, Prod.mk.injEq] at h
      obtain ⟨hc2, _⟩ := h
      subst hc2
      refine ⟨x, rfl, fun k => ?_, Or.inl rfl⟩
      by_cases hk : k = c
      · subst hk
        rw [if_pos rfl, hl]
        congr 1
        cases x
        simp_all
      · rw [if_neg hk]
    · rw [if_neg hxd] at h
      simp only [Option.some.injEq, Prod.mk.injEq] at h
      obtain ⟨hc2, _⟩ := h
      subst hc2
      refine ⟨x, rfl, fun k => ?_, Or.inr rfl⟩
      rw [show (⟨layersInsert cell.collision_layers c ⟨x.sprite_index, d⟩,
        cell.sprite_bits.insert x.sprite_index⟩ : Cell).collision_layers =
        layersInsert cell.collision_layers c ⟨x.sprite_index, d⟩ from rfl]
      rw [layersLookup_layersInsert]

/-- The board part of Board::remove_collision_layer as a record update. -/
theorem remove_collision_layer_parts (b : Board) (p : Position) (c : Nat) :
    (b.remove_collision_layer p c).1 =
      { b with
        grid := b.grid.set (b.pos p) ((b.get p).remove_collision_layer c).1
        row_cache := b.row_cache.set p.y
          ((b.row_cache.getD p.y StripeCache.new).remove_collision_layer c)
        col_cache := b.col_cache.set p.x
          ((b.col_cache.getD p.x StripeCache.new).remove_collision_layer c) } := by
  unfold Board.remove_collision_layer
  cases hc : (b.get p).remove_collision_layer c with
  | mk cell changed =>
    simp only [hc]

/-- A successful lookup on the cell after Cell::remove_collision_layer was
already successful before, for a canonical cell. -/
theorem cell_remove_lookup {cell : Cell} {c k : Nat} {sw : SpriteAndWantsToMove}
    (hs : cell.sorted_layers)
    (h : layersLookup ((cell.remove_collision_layer c).1).collision_layers k = some sw) :
    layersLookup cell.collision_layers k = some sw := by
  unfold Cell.remove_collision_layer at h
  cases hl : layersLookup cell.collision_layers c with
  | none =>
    simp only [hl] at h
    exact h
  | some w =>
    simp only [hl] at h
    exact layersLookup_layersRemove_some hs h

/-- Cell::remove_collision_layer keeps the cell canonical. -/
theorem cell_remove_sorted {cell : Cell} {c : Nat} (hs : cell.sorted_layers) :
    ((cell.remove_collision_layer c).1).sorted_layers := by
  unfold Cell.remove_collision_layer
  cases hl : layersLookup cell.collision_layers c with
  | none =>
    simp only [hl]
    exact hs
  | some w =>
    simp only [hl]
    exact hs.sublist (layersRemove_sublist _ _)

/-- Board::add_sprite_index preserves the invariant for an in-bounds
position and a sprite id in the BitSet range. -/
theorem add_sprite_index_inv {b : Board} {p : Position} {c idx : Nat} {d : WantsToMove}
    {b2 : Board} {ch : Bool}
    (h : b.add_sprite_index p c idx d = some (b2, ch))
    (hx : p.x < b.width) (hy : p.y < b.height) (hidx : idx < 512)
    (hinv : BoardInv b) :
    BoardInv b2 ∧ b2.width = b.width ∧ b2.height = b.height := by
  obtain ⟨⟨hgl, hrl, hcl, hrb, hcb⟩, hsort, hsup⟩ := hinv
  have hposlt : b.pos p < b.grid.length := by
    rw [hgl]
    exact rowmajor_lt hx hy
  have hdiv : b.pos p / b.width = p.y := rowmajor_div hx
  have hmod : b.pos p % b.width = p.x := rowmajor_mod hx
  unfold Board.add_sprite_index at h
  cases hc : (b.get p).add_sprite_index c idx d with
  | none =>
    rw [hc] at h
    cases h
  | some cb =>
    obtain ⟨cell2, chb⟩ := cb
    rw [hc] at h
    simp only [Option.some.injEq, Prod.mk.injEq] at h
    obtain ⟨hb2, _⟩ := h
    subst hb2
    obtain ⟨hlayers, hshape⟩ := cell_add_sprite_index_lookup hc
    refine ⟨⟨⟨?_, ?_, ?_, ?_, ?_⟩, ?_, ?_⟩, rfl, rfl⟩
    · show (b.grid.set (b.pos p) cell2).length = b.width * b.height
      rw [List.length_set]
      exact hgl
    · show (b.row_cache.set p.y _).length = b.height
      rw [List.length_set]
      exact hrl
    · show (b.col_cache.set p.x _).length = b.width
      rw [List.length_set]
      exact hcl
    · intro sc hsc
      rcases mem_of_mem_set hsc with rfl | hmem
      · show ((b.row_cache.getD p.y StripeCache.new).add_sprite_index c idx d).sprites.bits.length = 4
        unfold StripeCache.add_sprite_index
        rw [bitset_insert_length]
        exact cache_getD_len4 hrb p.y
      · exact hrb _ hmem
    · intro sc hsc
      rcases mem_of_mem_set hsc with rfl | hmem
      · show ((b.col_cache.getD p.x StripeCache.new).add_sprite_index c idx d).sprites.bits.length = 4
        unfold StripeCache.add_sprite_index
        rw [bitset_insert_length]
        exact cache_getD_len4 hcb p.x
      · exact hcb _ hmem
    · intro cell hcell
      rcases mem_of_mem_set hcell with rfl | hmem
      · unfold Cell.sorted_layers
        rcases hshape with he | he
        · rw [he]
          exact get_sorted hsort p
        · rw [he]
          exact layersInsert_pairwise (get_sorted hsort p)
      · exact hsort _ hmem
    · intro i c2 sw hs
      have hs2 : layersLookup
          ((b.grid.set (b.pos p) cell2).getD i Cell.new).collision_layers c2 = some sw := hs
      rw [list_getD_set] at hs2
      have hrle := fun m => cache_at_set_le
        (stripe_add_le (b.row_cache.getD p.y StripeCache.new) c idx d) m
      have hcle := fun m => cache_at_set_le
        (stripe_add_le (b.col_cache.getD p.x StripeCache.new) c idx d) m
      by_cases hpi : b.pos p = i ∧ b.pos p < b.grid.length
      · rw [if_pos hpi] at hs2
        rw [hlayers c2] at hs2
        by_cases hc2 : c2 = c
        · subst hc2
          rw [if_pos rfl] at hs2
          injection hs2 with hsw
          subst hsw
          refine ⟨?_, ?_, ?_, ?_⟩
          · show ((b.row_cache.set p.y
              ((b.row_cache.getD p.y StripeCache.new).add_sprite_index c2 idx d)).getD
              (i / b.width) StripeCache.new).sprites.contains idx = true
            rw [← hpi.1, hdiv, list_getD_set, if_pos ⟨rfl, by rw [hrl]; exact hy⟩]
            show ((b.row_cache.getD p.y StripeCache.new).sprites.insert idx).contains idx = true
            exact bitset_contains_insert_self (cache_getD_len4 hrb p.y) hidx
          · show (c2, d) ∈ ((b.row_cache.set p.y
              ((b.row_cache.getD p.y StripeCache.new).add_sprite_index c2 idx d)).getD
              (i / b.width) StripeCache.new).dirs
            rw [← hpi.1, hdiv, list_getD_set, if_pos ⟨rfl, by rw [hrl]; exact hy⟩]
            show (c2, d) ∈ dirsInsert (b.row_cache.getD p.y StripeCache.new).dirs (c2, d)
            exact dirsInsert_mem_self _ _
          · show ((b.col_cache.set p.x
              ((b.col_cache.getD p.x StripeCache.new).add_sprite_index c2 idx d)).getD
              (i % b.width) StripeCache.new).sprites.contains idx = true
            rw [← hpi.1, hmod, list_getD_set, if_pos ⟨rfl, by rw [hcl]; exact hx⟩]
            show ((b.col_cache.getD p.x StripeCache.new).sprites.insert idx).contains idx = true
            exact bitset_contains_insert_self (cache_getD_len4 hcb p.x) hidx
          · show (c2, d) ∈ ((b.col_cache.set p.x
              ((b.col_cache.getD p.x StripeCache.new).add_sprite_index c2 idx d)).getD
              (i % b.width) StripeCache.new).dirs
            rw [← hpi.1, hmod, list_getD_set, if_pos ⟨rfl, by rw [hcl]; exact hx⟩]
            show (c2, d) ∈ dirsInsert (b.col_cache.getD p.x StripeCache.new).dirs (c2, d)
            exact dirsInsert_mem_self _ _
        · rw [if_neg hc2] at hs2
          have hold : b.slot i c2 = some sw := by
            rw [← hpi.1]
            exact hs2
          obtain ⟨h1, h2, h3, h4⟩ := hsup i c2 sw hold
          exact ⟨(hrle (i / b.width)).1 _ h1, (hrle (i / b.width)).2 _ h2,
            (hcle (i % b.width)).1 _ h3, (hcle (i % b.width)).2 _ h4⟩
      · rw [if_neg hpi] at hs2
        have hold : b.slot i c2 = some sw := hs2
        obtain ⟨h1, h2, h3, h4⟩ := hsup i c2 sw hold
        exact ⟨(hrle (i / b.width)).1 _ h1, (hrle (i / b.width)).2 _ h2,
          (hcle (i % b.width)).1 _ h3, (hcle (i % b.width)).2 _ h4⟩

/-- Board::set_wants_to_move preserves the invariant for an in-bounds
position. -/
theorem set_wants_to_move_inv {b : Board} {p : Position} {c : Nat} {d : WantsToMove}
    {b2 : Board} {ch : Bool}
    (h : b.set_wants_to_move p c d = some (b2, ch))
    (hx : p.x < b.width) (hy : p.y < b.height)
    (hinv : BoardInv b) :
    BoardInv b2 ∧ b2.width = b.width ∧ b2.height = b.height := by
  obtain ⟨⟨hgl, hrl, hcl, hrb, hcb⟩, hsort, hsup⟩ := hinv
  have hposlt : b.pos p < b.grid.length := by
    rw [hgl]
    exact rowmajor_lt hx hy
  have hdiv : b.pos p / b.width = p.y := rowmajor_div hx
  have hmod : b.pos p % b.width = p.x := rowmajor_mod hx
  unfold Board.set_wants_to_move at h
  cases hc : (b.get p).set_wants_to_move c d with
  | none =>
    rw [hc] at h
    cases h
  | some cb =>
    obtain ⟨cell2, chb⟩ := cb
    rw [hc] at h
    simp only [Option.some.injEq, Prod.mk.injEq] at h
    obtain ⟨hb2, _⟩ := h
    subst hb2
    obtain ⟨x, hlx, hlayers, hshape⟩ := cell_set_wants_to_move_lookup hc
    have holdx : b.slot (b.pos p) c = some x := hlx
    obtain ⟨hx1, hx2, hx3, hx4⟩ := hsup (b.pos p) c x holdx
    rw [hdiv] at hx1 hx2
    rw [hmod] at hx3 hx4
    refine ⟨⟨⟨?_, ?_, ?_, ?_, ?_⟩, ?_, ?_⟩, rfl, rfl⟩
    · show (b.grid.set (b.pos p) cell2).length = b.width * b.height
      rw [List.length_set]
      exact hgl
    · show (b.row_cache.set p.y _).length = b.height
      rw [List.length_set]
      exact hrl
    · show (b.col_cache.set p.x _).length = b.width
      rw [List.length_set]
      exact hcl
    · intro sc hsc
      rcases mem_of_mem_set hsc with rfl | hmem
      · exact cache_getD_len4 hrb p.y
      · exact hrb _ hmem
    · intro sc hsc
      rcases mem_of_mem_set hsc with rfl | hmem
      · exact cache_getD_len4 hcb p.x
      · exact hcb _ hmem
    · intro cell hcell
      rcases mem_of_mem_set hcell with rfl | hmem
      · unfold Cell.sorted_layers
        rcases hshape with he | he
        · rw [he]
          exact get_sorted hsort p
        · rw [he]
          exact layersInsert_pairwise (get_sorted hsort p)
      · exact hsort _ hmem
    · intro i c2 sw hs
      have hs2 : layersLookup
          ((b.grid.set (b.pos p) cell2).getD i Cell.new).collision_layers c2 = some sw := hs
      rw [list_getD_set] at hs2
      have hrle := fun m => cache_at_set_le
        (stripe_set_le (b.row_cache.getD p.y StripeCache.new) c d) m
      have hcle := fun m => cache_at_set_le
        (stripe_set_le (b.col_cache.getD p.x StripeCache.new) c d) m
      by_cases hpi : b.pos p = i ∧ b.pos p < b.grid.length
      · rw [if_pos hpi] at hs2
        rw [hlayers c2] at hs2
        by_cases hc2 : c2 = c
        · subst hc2
          rw [if_pos rfl] at hs2
          injection hs2 with hsw
          subst hsw
          refine ⟨?_, ?_, ?_, ?_⟩
          · show ((b.row_cache.set p.y
              ((b.row_cache.getD p.y StripeCache.new).set_wants_to_move c2 d)).getD
              (i / b.width) StripeCache.new).sprites.contains x.sprite_index = true
            rw [← hpi.1, hdiv, list_getD_set, if_pos ⟨rfl, by rw [hrl]; exact hy⟩]
            exact hx1
          · show (c2, d) ∈ ((b.row_cache.set p.y
              ((b.row_cache.getD p.y StripeCache.new).set_wants_to_move c2 d)).getD
              (i / b.width) StripeCache.new).dirs
            rw [← hpi.1, hdiv, list_getD_set, if_pos ⟨rfl, by rw [hrl]; exact hy⟩]
            show (c2, d) ∈ dirsInsert (b.row_cache.getD p.y StripeCache.new).dirs (c2, d)
            exact dirsInsert_mem_self _ _
          · show ((b.col_cache.set p.x
              ((b.col_cache.getD p.x StripeCache.new).set_wants_to_move c2 d)).getD
              (i % b.width) StripeCache.new).sprites.contains x.sprite_index = true
            rw [← hpi.1, hmod, list_getD_set, if_pos ⟨rfl, by rw [hcl]; exact hx⟩]
            exact hx3
          · show (c2, d) ∈ ((b.col_cache.set p.x
              ((b.col_cache.getD p.x StripeCache.new).set_wants_to_move c2 d)).getD
              (i % b.width) StripeCache.new).dirs
            rw [← hpi.1, hmod, list_getD_set, if_pos ⟨rfl, by rw [hcl]; exact hx⟩]
            show (c2, d) ∈ dirsInsert (b.col_cache.getD p.x StripeCache.new).dirs (c2, d)
            exact dirsInsert_mem_self _ _
        · rw [if_neg hc2] at hs2
          have hold : b.slot i c2 = some sw := by
            rw [← hpi.1]
            exact hs2
          obtain ⟨h1, h2, h3, h4⟩ := hsup i c2 sw hold
          exact ⟨(hrle (i / b.width)).1 _ h1, (hrle (i / b.width)).2 _ h2,
            (hcle (i % b.width)).1 _ h3, (hcle (i % b.width)).2 _ h4⟩
      · rw [if_neg hpi] at hs2
        have hold : b.slot i c2 = some sw := hs2
        obtain ⟨h1, h2, h3, h4⟩ := hsup i c2 sw hold
        exact ⟨(hrle (i / b.width)).1 _ h1, (hrle (i / b.width)).2 _ h2,
          (hcle (i % b.width)).1 _ h3, (hcle (i % b.width)).2 _ h4⟩

/-- Board::remove_collision_layer preserves the invariant everywhere: the
caches go stale conservatively and the cell only loses a slot. -/
theorem remove_collision_layer_inv {b : Board} {p : Position} {c : Nat}
    (hinv : BoardInv b) :
    BoardInv (b.remove_collision_layer p c).1 ∧
    (b.remove_collision_layer p c).1.width = b.width ∧
    (b.remove_collision_layer p c).1.height = b.height := by
  obtain ⟨⟨hgl, hrl, hcl, hrb, hcb⟩, hsort, hsup⟩ := hinv
  rw [remove_collision_layer_parts]
  refine ⟨⟨⟨?_, ?_, ?_, ?_, ?_⟩, ?_, ?_⟩, rfl, rfl⟩
  · show (b.grid.set (b.pos p) _).length = b.width * b.height
    rw [List.length_set]
    exact hgl
  · show (b.row_cache.set p.y _).length = b.height
    rw [List.length_set]
    exact hrl
  · show (b.col_cache.set p.x _).length = b.width
    rw [List.length_set]
    exact hcl
  · intro sc hsc
    rcases mem_of_mem_set hsc with rfl | hmem
    · exact cache_getD_len4 hrb p.y
    · exact hrb _ hmem
  · intro sc hsc
    rcases mem_of_mem_set hsc with rfl | hmem
    · exact cache_getD_len4 hcb p.x
    · exact hcb _ hmem
  · intro cell hcell
    rcases mem_of_mem_set hcell with rfl | hmem
    · exact cell_remove_sorted (get_sorted hsort p)
    · exact hsort _ hmem
  · intro i c2 sw hs
    have hs2 : layersLookup ((b.grid.set (b.pos p)
        ((b.get p).remove_collision_layer c).1).getD i Cell.new).collision_layers c2
        = some sw := hs
    rw [list_getD_set] at hs2
    have hold : b.slot i c2 = some sw := by
      by_cases hpi : b.pos p = i ∧ b.pos p < b.grid.length
      · rw [if_pos hpi] at hs2
        rw [← hpi.1]
        exact cell_remove_lookup (get_sorted hsort p) hs2
      · rw [if_neg hpi] at hs2
        exact hs2
    obtain ⟨h1, h2, h3, h4⟩ := hsup i c2 sw hold
    have hrle := fun m => cache_at_set_le
      (show (b.row_cache.getD p.y StripeCache.new).le
        ((b.row_cache.getD p.y StripeCache.new).remove_collision_layer c) from
        StripeCache.le_refl _) m
    have hcle := fun m => cache_at_set_le
      (show (b.col_cache.getD p.x StripeCache.new).le
        ((b.col_cache.getD p.x StripeCache.new).remove_collision_layer c) from
        StripeCache.le_refl _) m
    exact ⟨(hrle (i / b.width)).1 _ h1, (hrle (i / b.width)).2 _ h2,
      (hcle (i % b.width)).1 _ h3, (hcle (i % b.width)).2 _ h4⟩

/-- Any one mutator call preserves the invariant on its domain. -/
theorem boardOp_apply_inv {b : Board} {op : BoardOp} {b2 : Board}
    (h : BoardOp.apply b op = some b2) (hop : op.wf b.width b.height)
    (hinv : BoardInv b) :
    BoardInv b2 ∧ b2.width = b.width ∧ b2.height = b.height := by
  cases op with
  | addSprite p s d =>
    obtain ⟨hx, hy, hidx⟩ := hop
    simp only [BoardOp.apply] at h
    cases hadd : b.add_sprite p s d with
    | none =>
      rw [hadd] at h
      cases h
    | some bc =>
      obtain ⟨b1, ch⟩ := bc
      rw [hadd] at h
      simp only [Option.map_some', Option.some.injEq] at h
      subst h
      exact add_sprite_index_inv hadd hx hy hidx hinv
  | addSpriteIndex p c i d =>
    obtain ⟨hx, hy, hidx⟩ := hop
    simp only [BoardOp.apply] at h
    cases hadd : b.add_sprite_index p c i d with
    | none =>
      rw [hadd] at h
      cases h
    | some bc =>
      obtain ⟨b1, ch⟩ := bc
      rw [hadd] at h
      simp only [Option.map_some', Option.some.injEq] at h
      subst h
      exact add_sprite_index_inv hadd hx hy hidx hinv
  | removeCollisionLayer p c =>
    simp only [BoardOp.apply, Option.some.injEq] at h
    subst h
    exact remove_collision_layer_inv hinv
  | setWantsToMove p c d =>
    obtain ⟨hx, hy⟩ := hop
    simp only [BoardOp.apply] at h
    cases hset : b.set_wants_to_move p c d with
    | none =>
      rw [hset] at h
      cases h
    | some bc =>
      obtain ⟨b1, ch⟩ := bc
      rw [hset] at h
      simp only [Option.map_some', Option.some.injEq] at h
      subst h
      exact set_wants_to_move_inv hset hx hy hinv

/-- Any sequence of mutator calls preserves the invariant on its domain. -/
theorem applyOps_inv {ops : List BoardOp} :
    ∀ {b b2 : Board}, applyOps b ops = some b2 →
    (∀ op ∈ ops, op.wf b.width b.height) →
    BoardInv b →
    BoardInv b2 := by
  induction ops with
  | nil =>
    intro b b2 h _ hinv
    simp only [applyOps, Option.some.injEq] at h
    exact h ▸ hinv
  | cons op rest ih =>
    intro b b2 h hops hinv
    simp only [applyOps] at h
    cases hstep : BoardOp.apply b op with
    | none =>
      rw [hstep] at h
      cases h
    | some b1 =>
      rw [hstep] at h
      obtain ⟨hinv1, hw, hh⟩ := boardOp_apply_inv hstep (hops op (List.mem_cons_self _ _)) hinv
      refine ih h (fun o ho => ?_) hinv1
      rw [hw, hh]
      exact hops o (List.mem_cons_of_mem _ ho)

/-- Board::new establishes the invariant: empty canonical cells, empty
caches of the right shape. -/
theorem board_new_inv (w h : Nat) : BoardInv (Board.new w h) := by
  refine ⟨⟨?_, ?_, ?_, ?_, ?_⟩, ?_, ?_⟩
  · exact List.length_replicate _ _
  · exact List.length_replicate _ _
  · exact List.length_replicate _ _
  · intro sc hsc
    rw [List.eq_of_mem_replicate hsc]
    rfl
  · intro sc hsc
    rw [List.eq_of_mem_replicate hsc]
    rfl
  · intro cell hcell
    have he := List.eq_of_mem_replicate hcell
    unfold Cell.sorted_layers
    rw [he]
    exact List.Pairwise.nil
  · intro i c sw hs
    have h0 : (Board.new w h).slot i c = none := by
      show layersLookup ((List.replicate (w * h) Cell.new).getD i Cell.new).collision_layers c
        = none
      have hg : (List.replicate (w * h) Cell.new).getD i Cell.new = Cell.new := by
        rw [list_getD_replicate]
        by_cases hi : i < w * h
        · rw [if_pos hi]
        · rw [if_neg hi]
      rw [hg]
      rfl
    rw [h0] at hs
    cases hs

/-- Board::add_sprites_at preserves the invariant for an in-bounds position
and sprite ids in the BitSet range. -/
theorem add_sprites_at_inv {sprites : List SpriteState} :
    ∀ {b b2 : Board} {p : Position},
    b.add_sprites_at p sprites = some b2 →
    p.x < b.width → p.y < b.height →
    (∀ s ∈ sprites, s.index < 512) →
    BoardInv b →
    BoardInv b2 ∧ b2.width = b.width ∧ b2.height = b.height := by
  induction sprites with
  | nil =>
    intro b b2 p h _ _ _ hinv
    simp only [Board.add_sprites_at, List.foldlM_nil, Option.pure_def,
      Option.some.injEq] at h
    exact ⟨h ▸ hinv, h ▸ rfl, h ▸ rfl⟩
  | cons s rest ih =>
    intro b b2 p h hx hy hidx hinv
    simp only [Board.add_sprites_at, List.foldlM_cons, Option.bind_eq_bind'] at h
    cases hadd : b.add_sprite p s .stationary with
    | none =>
      rw [hadd] at h
      simp only [Option.map_none', Option.none_bind'] at h
      cases h
    | some bc =>
      obtain ⟨b1, ch⟩ := bc
      rw [hadd] at h
      simp only [Option.map_some', Option.some_bind'] at h
      have h2 : b1.add_sprites_at p rest = some b2 := h
      obtain ⟨hinv1, hw1, hh1⟩ :=
        add_sprite_index_inv hadd hx hy (hidx s (List.mem_cons_self _ _)) hinv
      obtain ⟨hinv2, hw2, hh2⟩ := ih h2 (by rw [hw1]; exact hx) (by rw [hh1]; exact hy)
        (fun q hq => hidx q (List.mem_cons_of_mem _ hq)) hinv1
      exact ⟨hinv2, by rw [hw2, hw1], by rw [hh2, hh1]⟩

/-- One row of the from_tiles fold preserves the invariant when every
column index is inside the board and every sprite id is in range. -/
theorem from_tiles_row_inv (bg : Tile) (y : Nat) {tiles : List (Nat × Tile)} :
    ∀ {b b2 : Board},
    tiles.foldlM
      (fun (board : Board) (xtile : Nat × Tile) => do
        let p : Position := ⟨xtile.1, y⟩
        let board ← board.add_sprites_at p bg.sprites
        match xtile.2.kind with
        | .or => none
        | .and => board.add_sprites_at p xtile.2.sprites) b = some b2 →
    (∀ q ∈ tiles, (q : Nat × Tile).1 < b.width) →
    y < b.height →
    (∀ q ∈ tiles, ∀ s ∈ ((q : Nat × Tile).2).sprites, s.index < 512) →
    (∀ s ∈ bg.sprites, s.index < 512) →
    BoardInv b →
    BoardInv b2 ∧ b2.width = b.width ∧ b2.height = b.height := by
  induction tiles with
  | nil =>
    intro b b2 h _ _ _ _ hinv
    simp only [List.foldlM_nil, Option.pure_def, Option.some.injEq] at h
    exact ⟨h ▸ hinv, h ▸ rfl, h ▸ rfl⟩
  | cons q rest ih =>
    intro b b2 h hx hy hidx hbg hinv
    rw [List.foldlM_cons] at h
    simp only [Option.bind_eq_bind'] at h
    cases h1 : b.add_sprites_at ⟨q.1, y⟩ bg.sprites with
    | none =>
      rw [h1] at h
      simp only [Option.none_bind'] at h
      cases h
    | some b1 =>
      rw [h1] at h
      simp only [Option.some_bind'] at h
      obtain ⟨hinv1, hw1, hh1⟩ := add_sprites_at_inv h1
        (hx q (List.mem_cons_self _ _)) hy hbg hinv
      cases hk : q.2.kind with
      | or =>
        simp only [hk, Option.none_bind'] at h
        cases h
      | and =>
        simp only [hk] at h
        cases h2 : b1.add_sprites_at ⟨q.1, y⟩ q.2.sprites with
        | none =>
          rw [h2] at h
          simp only [Option.none_bind'] at h
          cases h
        | some b3 =>
          rw [h2] at h
          simp only [Option.some_bind'] at h
          obtain ⟨hinv3, hw3, hh3⟩ := add_sprites_at_inv h2
            (by rw [hw1]; exact hx q (List.mem_cons_self _ _)) (by rw [hh1]; exact hy)
            (hidx q (List.mem_cons_self _ _)) hinv1
          obtain ⟨hinv2, hw2, hh2⟩ := ih h
            (fun r hr => by rw [hw3, hw1]; exact hx r (List.mem_cons_of_mem _ hr))
            (by rw [hh3, hh1]; exact hy)
            (fun r hr => hidx r (List.mem_cons_of_mem _ hr)) hbg hinv3
          exact ⟨hinv2, by rw [hw2, hw3, hw1], by rw [hh2, hh3, hh1]⟩

/-- The whole from_tiles fold preserves the invariant. -/
theorem from_tiles_fold_inv (bg : Tile) {rows : List (Nat × List Tile)} :
    ∀ {b b2 : Board},
    rows.foldlM
      (fun (board : Board) (yrow : Nat × List Tile) =>
        yrow.2.enum.foldlM
          (fun (board : Board) (xtile : Nat × Tile) => do
            let p : Position := ⟨xtile.1, yrow.1⟩
            let board ← board.add_sprites_at p bg.sprites
            match xtile.2.kind with
            | .or => none
            | .and => board.add_sprites_at p xtile.2.sprites)
          board) b = some b2 →
    (∀ r ∈ rows, (r : Nat × List Tile).1 < b.height) →
    (∀ r ∈ rows, ((r : Nat × List Tile).2).length ≤ b.width) →
    (∀ r ∈ rows, ∀ t ∈ ((r : Nat × List Tile).2), ∀ s ∈ (t : Tile).sprites, s.index < 512) →
    (∀ s ∈ bg.sprites, s.index < 512) →
    BoardInv b →
    BoardInv b2 ∧ b2.width = b.width ∧ b2.height = b.height := by
  induction rows with
  | nil =>
    intro b b2 h _ _ _ _ hinv
    simp only [List.foldlM_nil, Option.pure_def, Option.some.injEq] at h
    exact ⟨h ▸ hinv, h ▸ rfl, h ▸ rfl⟩
  | cons r rest ih =>
    intro b b2 h hy hlen hidx hbg hinv
    rw [List.foldlM_cons] at h
    simp only [Option.bind_eq_bind'] at h
    cases h1 : List.foldlM
        (fun (board : Board) (xtile : Nat × Tile) =>
          (board.add_sprites_at ⟨xtile.1, r.1⟩ bg.sprites).bind fun board =>
            match xtile.2.kind with
            | TileKind.or => none
            | TileKind.and => board.add_sprites_at ⟨xtile.1, r.1⟩ xtile.2.sprites)
        b r.2.enum with
    | none =>
      rw [h1] at h
      simp only [Option.none_bind'] at h
      cases h
    | some b1 =>
      rw [h1] at h
      simp only [Option.some_bind'] at h
      obtain ⟨hinv1, hw1, hh1⟩ := from_tiles_row_inv bg r.1 h1
        (fun q hq => lt_of_lt_of_le (mem_enum_bounds hq).1 (hlen r (List.mem_cons_self _ _)))
        (hy r (List.mem_cons_self _ _))
        (fun q hq s hs => hidx r (List.mem_cons_self _ _) q.2 (mem_enum_bounds hq).2 s hs)
        hbg hinv
      obtain ⟨hinv2, hw2, hh2⟩ := ih h
        (fun q hq => by rw [hh1]; exact hy q (List.mem_cons_of_mem _ hq))
        (fun q hq => by rw [hw1]; exact hlen q (List.mem_cons_of_mem _ hq))
        (fun q hq => hidx q (List.mem_cons_of_mem _ hq)) hbg hinv1
      exact ⟨hinv2, by rw [hw2, hw1], by rw [hh2, hh1]⟩

/-- Board::from_tiles establishes the invariant, for a rectangular level
grid whose sprite ids are in the BitSet range. -/
theorem from_tiles_inv {grid : List (List Tile)} {bg : Tile} {b : Board}
    (h : Board.from_tiles grid bg = some b)
    (hrect : ∀ row ∈ grid, (row : List Tile).length = (grid.headD []).length)
    (hidx : ∀ row ∈ grid, ∀ t ∈ (row : List Tile), ∀ s ∈ (t : Tile).sprites, s.index < 512)
    (hbg : ∀ s ∈ bg.sprites, s.index < 512) :
    BoardInv b := by
  unfold Board.from_tiles at h
  obtain ⟨hinv, _, _⟩ := from_tiles_fold_inv bg h
    (fun r hr => (mem_enum_bounds hr).1)
    (fun r hr => le_of_eq (hrect r.2 (mem_enum_bounds hr).2))
    (fun r hr t ht s hs => hidx r.2 (mem_enum_bounds hr).2 t ht s hs)
    hbg (board_new_inv _ _)
  exact hinv

/-- The accumulator step of Board::from_checkpoint, named for the proofs. -/
def checkpointStep (width : Nat) (acc : List Cell × List StripeCache × List StripeCache)
    (iSprites : Nat × List SpriteState) :
    List Cell × List StripeCache × List StripeCache :=
  (acc.1 ++ [iSprites.2.foldl
      (fun (c : Cell) (sprite : SpriteState) =>
        match c.add_sprite sprite .stationary with
        | some (c2, _) => c2
        | none => c) Cell.new],
   acc.2.1.set (iSprites.1 / width)
     (iSprites.2.foldl (fun (rc : StripeCache) (sprite : SpriteState) =>
       rc.add_sprite_index sprite.collision_layer sprite.index .stationary)
       (acc.2.1.getD (iSprites.1 / width) StripeCache.new)),
   acc.2.2.set (iSprites.1 % width)
     (iSprites.2.foldl (fun (cc : StripeCache) (sprite : SpriteState) =>
       cc.add_sprite_index sprite.collision_layer sprite.index .stationary)
       (acc.2.2.getD (iSprites.1 % width) StripeCache.new)))

/-- Board::from_checkpoint as a fold of the named step. -/
theorem from_checkpoint_eq (width height : Nat) (grid : List (List SpriteState)) :
    Board.from_checkpoint width height grid =
      { width := width, height := height
        grid := (grid.enum.foldl (checkpointStep width)
          ([], List.replicate height StripeCache.new,
            List.replicate width StripeCache.new)).1
        row_cache := (grid.enum.foldl (checkpointStep width)
          ([], List.replicate height StripeCache.new,
            List.replicate width StripeCache.new)).2.1
        col_cache := (grid.enum.foldl (checkpointStep width)
          ([], List.replicate height StripeCache.new,
            List.replicate width StripeCache.new)).2.2 } := by
  unfold Board.from_checkpoint checkpointStep
  rfl

/-- Every occupied slot of the cell built by the checkpoint cell fold comes
from one of the folded sprites (entered Stationary), or from the start
cell. -/
theorem cell_fold_lookup {sprites : List SpriteState} :
    ∀ {c0 : Cell} {c : Nat} {sw : SpriteAndWantsToMove},
    layersLookup (sprites.foldl
      (fun (c : Cell) (sprite : SpriteState) =>
        match c.add_sprite sprite .stationary with
        | some (c2, _) => c2
        | none => c) c0).collision_layers c = some sw →
    (∃ s ∈ sprites, (s : SpriteState).collision_layer = c ∧
      sw = ⟨s.index, WantsToMove.stationary⟩) ∨
    layersLookup c0.collision_layers c = some sw := by
  induction sprites with
  | nil =>
    intro c0 c sw h
    exact Or.inr h
  | cons s rest ih =>
    intro c0 c sw h
    rw [List.foldl_cons] at h
    cases hadd : c0.add_sprite s .stationary with
    | none =>
      simp only [hadd] at h
      rcases ih h with ⟨t, ht, hc, hsw⟩ | hbase
      · exact Or.inl ⟨t, List.mem_cons_of_mem _ ht, hc, hsw⟩
      · exact Or.inr hbase
    | some cb =>
      obtain ⟨c1, ch⟩ := cb
      simp only [hadd] at h
      rcases ih h with ⟨t, ht, hc, hsw⟩ | hbase
      · exact Or.inl ⟨t, List.mem_cons_of_mem _ ht, hc, hsw⟩
      · have hchar := (cell_add_sprite_index_lookup hadd).1
        rw [hchar c] at hbase
        by_cases hcs : c = s.collision_layer
        · rw [if_pos hcs] at hbase
          injection hbase with hsw
          exact Or.inl ⟨s, List.mem_cons_self _ _, hcs.symm, hsw.symm⟩
        · rw [if_neg hcs] at hbase
          exact Or.inr hbase

/-- The checkpoint cell fold keeps the cell canonical. -/
theorem cell_fold_sorted {sprites : List SpriteState} :
    ∀ {c0 : Cell}, c0.sorted_layers →
    (sprites.foldl
      (fun (c : Cell) (sprite : SpriteState) =>
        match c.add_sprite sprite .stationary with
        | some (c2, _) => c2
        | none => c) c0).sorted_layers := by
  induction sprites with
  | nil =>
    intro c0 h0
    exact h0
  | cons s rest ih =>
    intro c0 h0
    rw [List.foldl_cons]
    cases hadd : c0.add_sprite s .stationary with
    | none =>
      simp only [hadd]
      exact ih h0
    | some cb =>
      obtain ⟨c1, ch⟩ := cb
      simp only [hadd]
      refine ih ?_
      rcases (cell_add_sprite_index_lookup hadd).2 with he | he
      · unfold Cell.sorted_layers
        rw [he]
        exact h0
      · unfold Cell.sorted_layers
        rw [he]
        exact layersInsert_pairwise h0

/-- The checkpoint cache fold only grows the cache. -/
theorem cache_fold_le (sprites : List SpriteState) :
    ∀ (c0 : StripeCache),
    c0.le (sprites.foldl (fun (rc : StripeCache) (sprite : SpriteState) =>
      rc.add_sprite_index sprite.collision_layer sprite.index .stationary) c0) := by
  induction sprites with
  | nil =>
    intro c0
    exact StripeCache.le_refl c0
  | cons s rest ih =>
    intro c0
    rw [List.foldl_cons]
    have h1 := stripe_add_le c0 s.collision_layer s.index .stationary
    have h2 := ih (c0.add_sprite_index s.collision_layer s.index .stationary)
    exact ⟨fun i hi => h2.1 i (h1.1 i hi), fun q hq => h2.2 q (h1.2 q hq)⟩

/-- The checkpoint cache fold keeps the bucket-list length. -/
theorem cache_fold_len (sprites : List SpriteState) :
    ∀ (c0 : StripeCache),
    (sprites.foldl (fun (rc : StripeCache) (sprite : SpriteState) =>
      rc.add_sprite_index sprite.collision_layer sprite.index .stationary)
      c0).sprites.bits.length = c0.sprites.bits.length := by
  induction sprites with
  | nil =>
    intro c0
    rfl
  | cons s rest ih =>
    intro c0
    rw [List.foldl_cons, ih]
    show (c0.sprites.insert s.index).bits.length = _
    exact bitset_insert_length _ _

/-- The checkpoint cache fold records every folded sprite. -/
theorem cache_fold_contains {sprites : List SpriteState} {s : SpriteState} :
    ∀ {c0 : StripeCache}, s ∈ sprites → c0.sprites.bits.length = 4 → s.index < 512 →
    ((sprites.foldl (fun (rc : StripeCache) (sprite : SpriteState) =>
        rc.add_sprite_index sprite.collision_layer sprite.index .stationary)
        c0).sprites.contains s.index = true ∧
     (s.collision_layer, WantsToMove.stationary) ∈
      (sprites.foldl (fun (rc : StripeCache) (sprite : SpriteState) =>
        rc.add_sprite_index sprite.collision_layer sprite.index .stationary) c0).dirs) := by
  induction sprites with
  | nil =>
    intro c0 hs _ _
    cases hs
  | cons t rest ih =>
    intro c0 hs hlen hidx
    rw [List.foldl_cons]
    rcases List.mem_cons.mp hs with rfl | hmem
    · have hle := cache_fold_le rest
        (c0.add_sprite_index s.collision_layer s.index .stationary)
      constructor
      · refine hle.1 _ ?_
        show (c0.sprites.insert s.index).contains s.index = true
        exact bitset_contains_insert_self hlen hidx
      · refine hle.2 _ ?_
        show (s.collision_layer, WantsToMove.stationary) ∈
          dirsInsert c0.dirs (s.collision_layer, WantsToMove.stationary)
        exact dirsInsert_mem_self _ _
    · refine ih hmem ?_ hidx
      show (c0.sprites.insert t.index).bits.length = 4
      rw [bitset_insert_length]
      exact hlen

/-- Invariant of the from_checkpoint accumulator: cell count, cache
shapes, canonical cells, and the cache superset over the built prefix. -/
def checkpointInv (w h n : Nat)
    (acc : List Cell × List StripeCache × List StripeCache) : Prop :=
  acc.1.length = n ∧
  acc.2.1.length = h ∧ acc.2.2.length = w ∧
  (∀ sc ∈ acc.2.1, (sc : StripeCache).sprites.bits.length = 4) ∧
  (∀ sc ∈ acc.2.2, (sc : StripeCache).sprites.bits.length = 4) ∧
  (∀ cell ∈ acc.1, (cell : Cell).sorted_layers) ∧
  (∀ i c sw, layersLookup (acc.1.getD i Cell.new).collision_layers c = some sw →
    (acc.2.1.getD (i / w) StripeCache.new).sprites.contains sw.sprite_index = true ∧
    (c, sw.wants_to_move) ∈ (acc.2.1.getD (i / w) StripeCache.new).dirs ∧
    (acc.2.2.getD (i % w) StripeCache.new).sprites.contains sw.sprite_index = true ∧
    (c, sw.wants_to_move) ∈ (acc.2.2.getD (i % w) StripeCache.new).dirs)

/-- The from_checkpoint fold preserves the accumulator invariant. -/
theorem from_checkpoint_fold_inv (w h : Nat) (rest : List (List SpriteState)) :
    ∀ (n : Nat) (acc : List Cell × List StripeCache × List StripeCache),
    checkpointInv w h n acc →
    (∀ cs ∈ rest, ∀ s ∈ (cs : List SpriteState), (s : SpriteState).index < 512) →
    n + rest.length ≤ w * h →
    checkpointInv w h (n + rest.length)
      ((List.enumFrom n rest).foldl (checkpointStep w) acc) := by
  induction rest with
  | nil =>
    intro n acc hinv _ _
    simp only [List.length_nil, Nat.add_zero]
    exact hinv
  | cons cs rest' ih =>
    intro n acc hinv hidx hbound
    obtain ⟨hn, hrl, hcl, hrb, hcb, hsorted, hsup⟩ := hinv
    have hwpos : n < w * h := by
      simp only [List.length_cons] at hbound
      omega
    have hwgt : 0 < w := by
      rcases Nat.eq_zero_or_pos w with hw0 | hw
      · rw [hw0, Nat.zero_mul] at hwpos
        exact absurd hwpos (Nat.not_lt_zero _)
      · exact hw
    have hdivlt : n / w < h := by
      rw [Nat.div_lt_iff_lt_mul hwgt]
      rw [Nat.mul_comm h w]
      exact hwpos
    have hmodlt : n % w < w := Nat.mod_lt _ hwgt
    have harith : n + (cs :: rest').length = (n + 1) + rest'.length := by
      simp only [List.length_cons]
      omega
    rw [harith,
      show List.enumFrom n (cs :: rest') =
        (n, cs) :: List.enumFrom (n + 1) rest' from rfl,
      List.foldl_cons]
    simp only [checkpointStep]
    refine ih (n + 1) _ ⟨?_, ?_, ?_, ?_, ?_, ?_, ?_⟩
      (fun q hq s hs => hidx q (List.mem_cons_of_mem _ hq) s hs)
      (by simp only [List.length_cons] at hbound; omega)
    · simp only [List.length_append, List.length_cons, List.length_nil, hn]
    · rw [List.length_set]
      exact hrl
    · rw [List.length_set]
      exact hcl
    · intro sc hsc
      rcases mem_of_mem_set hsc with rfl | hmem
      · rw [cache_fold_len]
        exact cache_getD_len4 hrb _
      · exact hrb _ hmem
    · intro sc hsc
      rcases mem_of_mem_set hsc with rfl | hmem
      · rw [cache_fold_len]
        exact cache_getD_len4 hcb _
      · exact hcb _ hmem
    · intro cell hcell
      rcases List.mem_append.mp hcell with hmem | hnew
      · exact hsorted _ hmem
      · rw [List.mem_singleton.mp hnew]
        exact cell_fold_sorted List.Pairwise.nil
    · intro i c sw hs
      have hrle := fun m => cache_at_set_le
        (cache_fold_le cs (acc.2.1.getD (n / w) StripeCache.new)) m
      have hcle := fun m => cache_at_set_le
        (cache_fold_le cs (acc.2.2.getD (n % w) StripeCache.new)) m
      by_cases hi : i < acc.1.length
      · rw [list_getD_append_left _ hi] at hs
        obtain ⟨h1, h2, h3, h4⟩ := hsup i c sw hs
        exact ⟨(hrle (i / w)).1 _ h1, (hrle (i / w)).2 _ h2,
          (hcle (i % w)).1 _ h3, (hcle (i % w)).2 _ h4⟩
      · by_cases hieq : i = acc.1.length
        · subst hieq
          rw [list_getD_append_right] at hs
          rcases cell_fold_lookup hs with ⟨s, hsmem, hscl, hssw⟩ | hbase
          · subst hssw
            subst hscl
            rw [hn]
            have hfr := cache_fold_contains hsmem (cache_getD_len4 hrb (n / w))
              (hidx cs (List.mem_cons_self _ _) s hsmem)
            have hfc := cache_fold_contains hsmem (cache_getD_len4 hcb (n % w))
              (hidx cs (List.mem_cons_self _ _) s hsmem)
            refine ⟨?_, ?_, ?_, ?_⟩
            · rw [list_getD_set, if_pos ⟨rfl, by rw [hrl]; exact hdivlt⟩]
              exact hfr.1
            · rw [list_getD_set, if_pos ⟨rfl, by rw [hrl]; exact hdivlt⟩]
              exact hfr.2
            · rw [list_getD_set, if_pos ⟨rfl, by rw [hcl]; exact hmodlt⟩]
              exact hfc.1
            · rw [list_getD_set, if_pos ⟨rfl, by rw [hcl]; exact hmodlt⟩]
              exact hfc.2
          · have hnone : (none : Option SpriteAndWantsToMove) = some sw := hbase
            cases hnone
        · have hge : (acc.1 ++ [cs.foldl
              (fun (c : Cell) (sprite : SpriteState) =>
                match c.add_sprite sprite .stationary with
                | some (c2, _) => c2
                | none => c) Cell.new]).length ≤ i := by
            simp only [List.length_append, List.length_cons, List.length_nil]
            omega
          rw [List.getD_eq_default _ _ hge] at hs
          have hnone : (none : Option SpriteAndWantsToMove) = some sw := hs
          cases hnone

/-- Board::from_checkpoint establishes the invariant, for a checkpoint of
the advertised size with sprite ids in the BitSet range. -/
theorem from_checkpoint_inv {w h : Nat} {grid : List (List SpriteState)}
    (hlen : grid.length = w * h)
    (hidx : ∀ cs ∈ grid, ∀ s ∈ (cs : List SpriteState), (s : SpriteState).index < 512) :
    BoardInv (Board.from_checkpoint w h grid) := by
  have hmain := from_checkpoint_fold_inv w h grid 0
    ([], List.replicate h StripeCache.new, List.replicate w StripeCache.new)
    ⟨rfl, List.length_replicate _ _, List.length_replicate _ _,
     fun sc hsc => by rw [List.eq_of_mem_replicate hsc]; rfl,
     fun sc hsc => by rw [List.eq_of_mem_replicate hsc]; rfl,
     fun cell hcell => absurd hcell (List.not_mem_nil _),
     fun i c sw hs => by
       have hnone : (none : Option SpriteAndWantsToMove) = some sw := hs
       cases hnone⟩
    hidx (by omega)
  obtain ⟨hn, hrl, hcl, hrb, hcb, hsorted, hsup⟩ := hmain
  rw [from_checkpoint_eq]
  refine ⟨⟨?_, ?_, ?_, ?_, ?_⟩, ?_, ?_⟩
  · show ((List.enumFrom 0 grid).foldl (checkpointStep w)
      ([], List.replicate h StripeCache.new,
        List.replicate w StripeCache.new)).1.length = w * h
    rw [hn, Nat.zero_add]
    exact hlen
  · exact hrl
  · exact hcl
  · exact hrb
  · exact hcb
  · exact hsorted
  · intro i c sw hs
    exact hsup i c sw hs

/-- The three Board constructors of the claim, each under the conditions
keeping the source free of its index panics: rectangular tile grids, a
checkpoint of the advertised size, and sprite ids in the BitSet range. -/
inductive InitialBoard : Board → Prop where
  | new : ∀ w h, InitialBoard (Board.new w h)
  | fromTiles : ∀ (grid : List (List Tile)) (bg : Tile) (b : Board),
      Board.from_tiles grid bg = some b →
      (∀ row ∈ grid, (row : List Tile).length = (grid.headD []).length) →
      (∀ row ∈ grid, ∀ t ∈ (row : List Tile), ∀ s ∈ (t : Tile).sprites,
        (s : SpriteState).index < 512) →
      (∀ s ∈ bg.sprites, (s : SpriteState).index < 512) →
      InitialBoard b
  | fromCheckpoint : ∀ (w h : Nat) (grid : List (List SpriteState)),
      grid.length = w * h →
      (∀ cs ∈ grid, ∀ s ∈ (cs : List SpriteState), (s : SpriteState).index < 512) →
      InitialBoard (Board.from_checkpoint w h grid)

/-- Every constructor of the claim establishes the invariant. -/
theorem initialBoard_inv {b : Board} (h : InitialBoard b) : BoardInv b := by
  cases h with
  | new w h => exact board_new_inv w h
  | fromTiles grid bg b hft hrect hidx hbg => exact from_tiles_inv hft hrect hidx hbg
  | fromCheckpoint w h grid hlen hidx => exact from_checkpoint_inv hlen hidx

/-- C4: for every Board obtained from Board::new, Board::from_tiles or
Board::from_checkpoint by any sequence of the mutators Board::add_sprite,
Board::add_sprite_index, Board::remove_collision_layer and
Board::set_wants_to_move (each call on a cell of the board, with sprite
ids in the BitSet range), each row cache (resp. column cache) contains, as
a superset, every sprite id and every (collision layer, wants_to_move)
pair currently present in some cell of that row (resp. column). -/
theorem board_cache_superset {b0 : Board} {ops : List BoardOp} {b : Board}
    (h0 : InitialBoard b0)
    (hops : ∀ op ∈ ops, (op : BoardOp).wf b0.width b0.height)
    (happ : applyOps b0 ops = some b) :
    Board.cache_superset b :=
  (applyOps_inv happ hops (initialBoard_inv h0)).2.2

/-- Witness for C4: one add_sprite on a fresh 2 by 1 board. -/
theorem board_cache_superset_witness :
    Board.cache_superset ((applyOps (Board.new 2 1)
      [BoardOp.addSprite ⟨0, 0⟩ cPlayer WantsToMove.stationary]).getD (Board.new 0 0)) :=
  @board_cache_superset (Board.new 2 1)
    [BoardOp.addSprite ⟨0, 0⟩ cPlayer WantsToMove.stationary]
    ((applyOps (Board.new 2 1)
      [BoardOp.addSprite ⟨0, 0⟩ cPlayer WantsToMove.stationary]).getD (Board.new 0 0))
    (InitialBoard.new 2 1)
    (fun op hop => by
      have he := List.mem_singleton.mp hop
      subst he
      exact ⟨by decide, by decide, by decide⟩)
    (by rfl)

end PS
